import Mathlib

/-!
Shallow embedding of the route-planning engine of `routes/dijkstra_views.py`
(`PlanificarRutaView.post` and its helpers), together with proofs about it.

Modelling conventions:
* Python `Decimal` / `float` arithmetic is modelled exactly over `ℚ`.
* Python strings are modelled through their character lists (`String.data`);
  `str.upper` is modelled ASCII-wise (`Char.toUpper`), `str.strip` as trimming
  of ASCII whitespace — faithful on the line codes the system manipulates.
* `math.sqrt` is kept abstract: the graph builder is parametrised by a
  function `sqrtFn : ℚ → ℚ` standing for it.
* Python dicts become association lists (`alookup`/`ainsert`); the `heapq`
  frontier becomes a list from which `popMin` removes a minimal-cost entry
  (ties between equal costs may be resolved differently than `heapq`, which
  orders by the full tuple).
* The unbounded `while` loops run on explicit fuel; `none` means "out of fuel".
-/

namespace DijkstraViews

/-- Association-list lookup, modelling Python `dict.get`. -/
def alookup {κ β : Type} [DecidableEq κ] : List (κ × β) → κ → Option β
  | [], _ => none
  | (k, v) :: t, a => if a = k then some v else alookup t a

/-- Association-list insert-or-overwrite, modelling Python `dict[k] = v`. -/
def ainsert {κ β : Type} [DecidableEq κ] : List (κ × β) → κ → β → List (κ × β)
  | [], k, v => [(k, v)]
  | (k', w) :: t, k, v => if k' = k then (k, v) :: t else (k', w) :: ainsert t k v

/-! ### String normalisation (`extraer_codigo_base`, lines 162-172) -/

/-- Characters removed by Python `str.strip()` (ASCII fragment). -/
def pySpace (c : Char) : Bool := c.isWhitespace

/-- Python `s.strip()` on the character list. -/
def trimL (l : List Char) : List Char :=
  ((l.dropWhile pySpace).reverse.dropWhile pySpace).reverse

/-- Python `s.upper()` on the character list (ASCII range). -/
def upperL (l : List Char) : List Char := l.map Char.toUpper

/-- Python `s[:-n]` for `n ≤ len s`. -/
def dropRightL (n : Nat) (l : List Char) : List Char := l.take (l.length - n)

/-- The fixed suffix list of `extraer_codigo_base`, in source order. -/
def sufijos : List (List Char) :=
  [" IDA".data, " VUELTA".data, " RETORNO".data, " A".data, " B".data,
   "-IDA".data, "-VUELTA".data]

/-- One iteration of the `for sufijo in [...]` loop body:
`if codigo_upper.endswith(sufijo): codigo_upper = codigo_upper[:-len(sufijo)].strip()`. -/
def stripPaso (c : List Char) (suf : List Char) : List Char :=
  if suf <:+ c then trimL (dropRightL suf.length c) else c

/-- The whole `for` loop of `extraer_codigo_base`. -/
def stripSufijos : List (List Char) → List Char → List Char
  | [], c => c
  | suf :: rest, c => stripSufijos rest (stripPaso c suf)

/-- `extraer_codigo_base` (dijkstra_views.py lines 162-172):
uppercase, strip, then run the suffix-stripping loop. -/
def extraer_codigo_base (codigo : String) : String :=
  ⟨stripSufijos sufijos (trimL (upperL codigo.data))⟩

/-- The normalisation step exactly as §4.3 of the spec words it: strip ONE
trailing directional token — the first match in the fixed priority order —
and nothing more.  Used to compare the spec's description with the code. -/
def stripUnSufijo (c : List Char) : List Char :=
  match sufijos.find? (fun suf => decide (suf <:+ c)) with
  | some suf => trimL (dropRightL suf.length c)
  | none => c

/-- Spec-worded variant of `base_code`: uppercase, trim, strip one trailing token. -/
def base_code_spec (codigo : String) : String :=
  ⟨stripUnSufijo (trimL (upperL codigo.data))⟩

/-! ### Constants (lines 90-105 and 420-421), exactly the source values -/

def DEG_TO_KM : ℚ := 111

def WALK_SPEED_KMH : ℚ := 5

def WALK_DISTANCE_FACTOR : ℚ := 7 / 5

def WALK_PENALTY_FACTOR : ℚ := 3 / 2

def TRANSFER_PENALTY_MIN : ℚ := 8

def MAX_TRANSFER_WALK_D2 : ℚ := 15 / 1000000

def MAX_DEST_WALK_D2 : ℚ := 1 / 5000

def MAX_ORIGIN_NEIGHBORS : Nat := 10

def INF : ℚ := 999999999

def ORIGIN_NODE_ID : Int := 0

def DEST_NODE_ID : Int := -1

def max_trasbordos : Nat := 2

def K_RUTAS : Nat := 3

/-- `distancia_cuadrada` (lines 87-88); `x ** 2` written as `x * x` so the
kernel can evaluate it (the value is identical). -/
def distancia_cuadrada (lat1 lon1 lat2 lon2 : ℚ) : ℚ :=
  (lat1 - lat2) * (lat1 - lat2) + (lon1 - lon2) * (lon1 - lon2)

/-- `tiempo_desde_dist_km` (lines 107-122): walking time in minutes from a
straight-line distance in km. -/
def tiempo_desde_dist_km (dist_km : ℚ) : ℚ :=
  if dist_km ≤ 0 then 0
  else dist_km * WALK_DISTANCE_FACTOR / WALK_SPEED_KMH * 60 * WALK_PENALTY_FACTOR

/-! ### The `Edge` named tuple (lines 19-34) -/

structure Edge where
  from_punto_id : Int
  to_punto_id : Int
  tiempo : ℚ
  distancia : ℚ
  linea_id : Option Nat
  linea_codigo : String
  linea_codigo_base : String
  linea_nombre : String
  linea_ruta_id : Option Nat
  numero_ruta : Nat
  es_caminar : Bool
deriving DecidableEq

/-- Search state `(punto_id, linea_ruta_id, trasbordos)`. -/
abbrev SKey : Type := Int × Option Nat × Nat

def startState : SKey := (ORIGIN_NODE_ID, none, 0)

/-- Python truthiness of an optional string: `None` and `""` are falsy. -/
def truthyStr : Option String → Bool
  | none => false
  | some s => !(s == "")

/-- The per-edge bookkeeping of one relaxation (lines 463-508): from context
`ctx` with `trasbordos` transfers, taking edge `e`, returns
`(nueva_linea_ruta, nuevo_trasbordos, transfer_penalty)`.
`lut` is the `linea_ruta_to_codigo_base` dictionary. -/
def stepTransition (lut : List (Nat × String)) (ctx : Option Nat) (trasbordos : Nat)
    (e : Edge) : Option Nat × Nat × ℚ :=
  let edge_linea_ruta : Option Nat := if e.es_caminar then ctx else e.linea_ruta_id
  let edge_codigo_base : Option String :=
    if e.es_caminar then none else some e.linea_codigo_base
  let actual : Option String :=
    match ctx with
    | none => none
    | some r => alookup lut r
  match edge_linea_ruta, ctx with
  | none, _ => (ctx, trasbordos, 0)
  | some r, none => (some r, trasbordos, 0)
  | some r, some c =>
    if c = r then (some c, trasbordos, 0)
    else if truthyStr actual && truthyStr edge_codigo_base && !(actual == edge_codigo_base)
    then (some r, trasbordos + 1, TRANSFER_PENALTY_MIN)
    else (some r, trasbordos, TRANSFER_PENALTY_MIN)

/-- Transfer penalty charged by `stepTransition`. -/
def pen (lut : List (Nat × String)) (s : SKey) (e : Edge) : ℚ :=
  (stepTransition lut s.2.1 s.2.2 e).2.2

/-- Successor state key of a relaxation. -/
def nextKey (lut : List (Nat × String)) (s : SKey) (e : Edge) : SKey :=
  (e.to_punto_id, (stepTransition lut s.2.1 s.2.2 e).1,
    (stepTransition lut s.2.1 s.2.2 e).2.1)

/-! ### The search (lines 420-541) -/

/-- One frontier entry, Python's `(cost, punto_id, linea_ruta_id, trasbordos)` tuple. -/
structure PQE where
  cost : ℚ
  punto : Int
  linea : Option Nat
  trasb : Nat
deriving DecidableEq

def PQE.key (ent : PQE) : SKey := (ent.punto, ent.linea, ent.trasb)

/-- `heapq.heappop`: remove an entry of minimal cost (first such entry). -/
def popMin : List PQE → Option (PQE × List PQE)
  | [] => none
  | ent :: rest =>
    match popMin rest with
    | none => some (ent, [])
    | some (m, rest') =>
      if ent.cost ≤ m.cost then some (ent, rest) else some (m, ent :: rest')

/-- Adjacency structure: Python's `edges` defaultdict as an association list. -/
abbrev Graph : Type := List (Int × List Edge)

/-- `edges.get(punto_id, [])`. -/
def edgesOf (g : Graph) (p : Int) : List Edge := (alookup g p).getD []

/-- `edges[k].append(e)` on the defaultdict. -/
def addEdge (g : Graph) (k : Int) (e : Edge) : Graph :=
  match g with
  | [] => [(k, [e])]
  | (k', es) :: t => if k = k' then (k', es ++ [e]) :: t else (k', es) :: addEdge t k e

/-- The mutable state of the Dijkstra loop: `dist`, `prev_state`, `pq`,
`dest_states`.  Map updates cons a new binding in front (lookup shadowing),
so `dist` also records every binding ever inserted. -/
structure SS where
  dist : List (SKey × ℚ)
  prev : List (SKey × (SKey × Edge))
  pq : List PQE
  dest : List (SKey × ℚ)
deriving DecidableEq

/-- Body of `for edge in edges_punto` (lines 462-536): relax one edge out of
popped state `s` with popped cost `c`. -/
def relaxOne (lut : List (Nat × String)) (maxT : Nat) (s : SKey) (c : ℚ)
    (ss : SS) (e : Edge) : SS :=
  let tr := stepTransition lut s.2.1 s.2.2 e
  if maxT < tr.2.1 then ss
  else
    let nuevoCost := c + e.tiempo + tr.2.2
    let ns : SKey := (e.to_punto_id, tr.1, tr.2.1)
    if nuevoCost < (alookup ss.dist ns).getD INF then
      { ss with
        dist := (ns, nuevoCost) :: ss.dist
        prev := (ns, (s, e)) :: ss.prev
        pq := ss.pq ++ [⟨nuevoCost, e.to_punto_id, tr.1, tr.2.1⟩] }
    else ss

/-- The `while pq and len(dest_states) < K_RUTAS` loop (lines 436-538),
on explicit fuel; `none` means the fuel ran out before the loop exited. -/
def searchLoop (g : Graph) (lut : List (Nat × String)) (K maxT : Nat) :
    Nat → SS → Option SS
  | 0, _ => none
  | fuel + 1, ss =>
    if K ≤ ss.dest.length then some ss
    else
      match popMin ss.pq with
      | none => some ss
      | some (ent, rest) =>
        let s : SKey := ent.key
        let ss1 : SS := { ss with pq := rest }
        match alookup ss.dist s with
        | some d =>
          if d < ent.cost then searchLoop g lut K maxT fuel ss1
          else if ent.punto = DEST_NODE_ID then
            searchLoop g lut K maxT fuel { ss1 with dest := ss1.dest ++ [(s, ent.cost)] }
          else
            searchLoop g lut K maxT fuel
              ((edgesOf g ent.punto).foldl (relaxOne lut maxT s ent.cost) ss1)
        | none =>
          if ent.punto = DEST_NODE_ID then
            searchLoop g lut K maxT fuel { ss1 with dest := ss1.dest ++ [(s, ent.cost)] }
          else
            searchLoop g lut K maxT fuel
              ((edgesOf g ent.punto).foldl (relaxOne lut maxT s ent.cost) ss1)

/-- Initial loop state (lines 423-429). -/
def initSS : SS :=
  { dist := [(startState, 0)], prev := [], pq := [⟨0, ORIGIN_NODE_ID, none, 0⟩], dest := [] }

/-! ### Itinerary reconstruction (lines 552-696) -/

/-- Predecessor map type. -/
abbrev PrevMap : Type := List (SKey × (SKey × Edge))

/-- The `while state in prev_state` chain walk (lines 561-569), already in
forward order (the source reverses afterwards).  Fuel bounds the walk; the
caller passes `prev.length + 1`, enough for any acyclic chain. -/
def reconChain (prev : PrevMap) : Nat → SKey → List SKey × List Edge
  | 0, s => ([s], [])
  | fuel + 1, s =>
    match alookup prev s with
    | none => ([s], [])
    | some (p, e) =>
      let r := reconChain prev fuel p
      (r.1 ++ [s], r.2 ++ [e])

/-- `Punto` rows (and the virtual origin/destination points). -/
structure Punto where
  id : Int
  latitud : ℚ
  longitud : ℚ
  descripcion : String
deriving DecidableEq

def defaultPunto : Punto := ⟨0, 0, 0, ""⟩

def defaultEdge : Edge :=
  ⟨0, 0, 0, 0, none, "", "", "", none, 0, true⟩

/-- `describir_punto` (lines 124-125); the numeric fallback is rendered with
`ℚ`'s printer where Python prints `Decimal`s. -/
def describir_punto (p : Punto) : String :=
  if p.descripcion = "" then toString p.latitud ++ "," ++ toString p.longitud
  else p.descripcion

/-- Transfer-flag computation for position `i` of the path (lines 576-594). -/
def flagAt (lut : List (Nat × String)) (sts : List SKey) (segs : List Edge)
    (i : Nat) : Option String :=
  if 1 ≤ i ∧ i + 1 < sts.length then
    let prevS := sts.getD (i - 1) startState
    let currS := sts.getD i startState
    match prevS.2.1, currS.2.1 with
    | some pr, some cr =>
      if pr = cr then none
      else
        let incoming := segs.getD (i - 1) defaultEdge
        if incoming.es_caminar then none
        else
          match alookup lut pr with
          | some pb =>
            if pb ≠ "" ∧ incoming.linea_codigo_base ≠ "" ∧ pb ≠ incoming.linea_codigo_base
            then some incoming.linea_codigo
            else none
          | none => none
    | _, _ => none
  else none

/-- `linea_trasbordo_flags` (lines 576-594). -/
def trasbordoFlags (lut : List (Nat × String)) (sts : List SKey) (segs : List Edge) :
    List (Option String) :=
  (List.range sts.length).map (flagAt lut sts segs)

/-- One element of `puntos_data` (lines 605-637). -/
structure PuntoData where
  orden : Nat
  latitud : ℚ
  longitud : ℚ
  descripcion : String
  distancia_tramo : ℚ
  distancia_acumulada : ℚ
  tiempo_tramo : ℚ
  tiempo_acumulado : ℚ
  linea_trasbordo : Option String
deriving DecidableEq

/-- The `for idx, punto_id in enumerate(node_ids)` accumulation for `idx ≥ 1`:
nodes and segments are consumed in lockstep (the source indexes
`segmentos[idx - 1]`, which always exists on reconstructed paths). -/
def puntosDataGo (pb : List (Int × Punto)) (flags : List (Option String)) :
    Nat → ℚ → ℚ → List Int → List Edge → List PuntoData
  | _, _, _, [], _ => []
  | _, _, _, _ :: _, [] => []
  | idx, tAcc, dAcc, pid :: rest, e :: es =>
    let p := (alookup pb pid).getD defaultPunto
    let t := tAcc + e.tiempo
    let d := dAcc + e.distancia
    { orden := idx + 1, latitud := p.latitud, longitud := p.longitud,
      descripcion := p.descripcion, distancia_tramo := e.distancia,
      distancia_acumulada := d, tiempo_tramo := e.tiempo, tiempo_acumulado := t,
      linea_trasbordo := flags.getD idx none } ::
      puntosDataGo pb flags (idx + 1) t d rest es

/-- `puntos_data` (lines 596-638). -/
def puntosData (pb : List (Int × Punto)) (flags : List (Option String))
    (nodeIds : List Int) (segs : List Edge) : List PuntoData :=
  match nodeIds with
  | [] => []
  | pid :: rest =>
    let p := (alookup pb pid).getD defaultPunto
    { orden := 1, latitud := p.latitud, longitud := p.longitud,
      descripcion := p.descripcion, distancia_tramo := 0, distancia_acumulada := 0,
      tiempo_tramo := 0, tiempo_acumulado := 0,
      linea_trasbordo := flags.getD 0 none } :: puntosDataGo pb flags 1 0 0 rest segs

/-- One entry of `lineas_usadas` (lines 644-651). -/
structure LineaInfo where
  codigo : String
  nombre : String
  sentido : Nat
  linea_id : Option Nat
deriving DecidableEq

/-- `lineas_usadas` (lines 640-652): first-encounter list keyed by
`(linea_id, numero_ruta)`, skipping walking edges. -/
def lineasUsadas (segs : List Edge) : List LineaInfo :=
  segs.foldl
    (fun acc e =>
      if e.es_caminar then acc
      else if acc.any (fun li => decide (li.linea_id = e.linea_id ∧ li.sentido = e.numero_ruta))
      then acc
      else acc ++ [⟨e.linea_codigo, e.linea_nombre, e.numero_ruta, e.linea_id⟩]) []

/-- `lineas_unicas` (lines 654-659): regroup by `linea_id` alone, keeping the
first entry for each line. -/
def lineasUnicas (lineas : List LineaInfo) : List LineaInfo :=
  lineas.foldl
    (fun acc li =>
      if acc.any (fun x => decide (x.linea_id = li.linea_id)) then acc else acc ++ [li]) []

/-- `texto_lineas_simple` (lines 661-675). -/
def textoLineasSimple (detalles : List String) : String :=
  match detalles with
  | [] => "sin utilizar líneas"
  | [d] => "utilizando la línea " ++ d
  | ds =>
    "utilizando las líneas " ++ String.intercalate ", " ds.dropLast ++ " y " ++ ds.getLastD ""

/-- `descripcion_ruta` (lines 680-685). -/
def descripcionRuta (ini fin : Punto) (texto : String) : String :=
  "Ruta desde " ++ describir_punto ini ++ " hasta " ++ describir_punto fin ++ ", " ++
    texto ++ " y como máximo " ++ toString max_trasbordos ++ " trasbordos."

/-- One element of `rutas_procesadas` (lines 689-695). -/
structure Ruta where
  lineas : List LineaInfo
  descripcion_ruta : String
  distancia_total : ℚ
  tiempo_total : ℚ
  puntos : List PuntoData
deriving DecidableEq

/-- Processing of one accepted destination state (lines 555-696). -/
def procesarRuta (prev : PrevMap) (pb : List (Int × Punto))
    (lut : List (Nat × String)) (dsc : SKey × ℚ) : Ruta :=
  let r := reconChain prev (prev.length + 1) dsc.1
  let sts := r.1
  let segs := r.2
  let nodeIds := sts.map (fun st => st.1)
  let flags := trasbordoFlags lut sts segs
  let pdata := puntosData pb flags nodeIds segs
  let lus := lineasUsadas segs
  let texto := textoLineasSimple ((lineasUnicas lus).map (fun li => li.codigo))
  let consumed := segs.take (nodeIds.length - 1)
  let iniP := (alookup pb (nodeIds.headD DEST_NODE_ID)).getD defaultPunto
  let finP := (alookup pb (nodeIds.getLastD DEST_NODE_ID)).getD defaultPunto
  { lineas := lus
    descripcion_ruta := descripcionRuta iniP finP texto
    distancia_total := (consumed.map (fun e => e.distancia)).sum
    tiempo_total := (consumed.map (fun e => e.tiempo)).sum
    puntos := pdata }

/-! ### Graph construction and the whole planner (lines 61-701) -/

/-- One `LineaPunto` row, as consumed by the builder (only the fields used). -/
structure LP where
  punto_id : Int
  tiempo : ℚ
  distancia : ℚ
deriving DecidableEq

/-- One `LineaRuta` row with its stops already ordered by `orden`
(the source's `order_by("orden")`). -/
structure LR where
  id : Nat
  linea_id : Nat
  linea_codigo : String
  linea_nombre : String
  numero_ruta : Nat
  puntos : List LP
deriving DecidableEq

/-- Consecutive pairs of a list: the `for i in range(1, len(lps))` iteration. -/
def consPairs {α : Type} : List α → List (α × α)
  | a :: b :: t => (a, b) :: consPairs (b :: t)
  | _ => []

/-- The transit edge built from the consecutive pair `(prev_lp, curr_lp)`
(lines 190-202). -/
def mkTransitEdge (lr : LR) (pr : LP × LP) : Edge :=
  { from_punto_id := pr.1.punto_id, to_punto_id := pr.2.punto_id,
    tiempo := pr.2.tiempo, distancia := pr.2.distancia,
    linea_id := some lr.linea_id, linea_codigo := lr.linea_codigo,
    linea_codigo_base := extraer_codigo_base lr.linea_codigo,
    linea_nombre := lr.linea_nombre, linea_ruta_id := some lr.id,
    numero_ruta := lr.numero_ruta, es_caminar := false }

/-- Bus-edge construction (lines 177-203). -/
def buildTransit (lineas_ruta : List LR) : Graph :=
  lineas_ruta.foldl
    (fun g lr => (consPairs lr.puntos).foldl
      (fun g' pr => addEdge g' pr.1.punto_id (mkTransitEdge lr pr)) g) []

/-- `linea_ruta_to_codigo_base` (lines 208-214). -/
def lutOf (g : Graph) : List (Nat × String) :=
  g.foldl
    (fun acc b => b.2.foldl
      (fun acc' e =>
        if e.es_caminar then acc'
        else
          match e.linea_ruta_id with
          | some r => ainsert acc' r e.linea_codigo_base
          | none => acc') acc) []

/-- Stable ascending sort by a rational key (Python `sorted` with a `key`). -/
def insertByKey {α : Type} (key : α → ℚ) (x : α) : List α → List α
  | [] => [x]
  | y :: t => if key y ≤ key x then y :: insertByKey key x t else x :: y :: t

def sortedByKey {α : Type} (key : α → ℚ) (l : List α) : List α :=
  l.foldl (fun acc x => insertByKey key x acc) []

/-- Origin walking edge (lines 291-317). -/
def mkOriginEdge (sqrtFn : ℚ → ℚ) (iniLat iniLon : ℚ) (p : Punto) : Edge :=
  let d2 := distancia_cuadrada iniLat iniLon p.latitud p.longitud
  let dist_km := sqrtFn d2 * DEG_TO_KM
  { from_punto_id := ORIGIN_NODE_ID, to_punto_id := p.id,
    tiempo := tiempo_desde_dist_km dist_km,
    distancia := dist_km * WALK_DISTANCE_FACTOR,
    linea_id := none, linea_codigo := "CAMINAR_ORIGEN", linea_codigo_base := "CAMINAR",
    linea_nombre := "Caminata desde origen", linea_ruta_id := none, numero_ruta := 0,
    es_caminar := true }

/-- Stop-to-stop walking edge (lines 349-374); `p` is the tail, `q` the head. -/
def mkTransferEdge (sqrtFn : ℚ → ℚ) (p q : Punto) : Edge :=
  let d2 := distancia_cuadrada p.latitud p.longitud q.latitud q.longitud
  let dist_km := sqrtFn d2 * DEG_TO_KM
  { from_punto_id := p.id, to_punto_id := q.id,
    tiempo := tiempo_desde_dist_km dist_km,
    distancia := dist_km * WALK_DISTANCE_FACTOR,
    linea_id := none, linea_codigo := "CAMINAR", linea_codigo_base := "CAMINAR",
    linea_nombre := "Caminata entre paradas", linea_ruta_id := none, numero_ruta := 0,
    es_caminar := true }

/-- Destination walking edge (lines 395-407). -/
def mkDestEdge (sqrtFn : ℚ → ℚ) (finLat finLon : ℚ) (p : Punto) : Edge :=
  let d2 := distancia_cuadrada p.latitud p.longitud finLat finLon
  let dist_km := sqrtFn d2 * DEG_TO_KM
  { from_punto_id := p.id, to_punto_id := DEST_NODE_ID,
    tiempo := tiempo_desde_dist_km dist_km,
    distancia := dist_km * WALK_DISTANCE_FACTOR,
    linea_id := none, linea_codigo := "CAMINAR_DESTINO", linea_codigo_base := "CAMINAR",
    linea_nombre := "Caminata al destino", linea_ruta_id := none, numero_ruta := 0,
    es_caminar := true }

/-- The doubly-nested pair loop adding bidirectional transfer walks
(lines 327-377): the outer element is paired with every later element. -/
def addTransferEdges (sqrtFn : ℚ → ℚ) : List Punto → Graph → Graph
  | [], g => g
  | p :: rest, g =>
    let g' := rest.foldl
      (fun acc q =>
        if MAX_TRANSFER_WALK_D2 <
            distancia_cuadrada p.latitud p.longitud q.latitud q.longitud then acc
        else addEdge (addEdge acc p.id (mkTransferEdge sqrtFn p q)) q.id
          (mkTransferEdge sqrtFn q p)) g
    addTransferEdges sqrtFn rest g'

/-- Whether `p` occurs as the target of some edge of `g`. -/
def isEdgeTarget (g : Graph) (pid : Int) : Bool :=
  g.any (fun b => b.2.any (fun e => e.to_punto_id == pid))

/-- The outcome of `PlanificarRutaView.post`: the three error `Response`s and
the success payload. -/
inductive Outcome where
  | errNoPuntos : Outcome
  | errNoTramos : Outcome
  | notFound : Outcome
  | ok : List Ruta → Outcome
deriving DecidableEq

/-- `puntos_bus` (lines 229-235): points touched by some transit edge. -/
def puntosBus (gBus : Graph) (puntos : List Punto) : List Punto :=
  puntos.filter (fun p => (alookup gBus p.id).isSome || isEdgeTarget gBus p.id)

/-- The full walking-augmented graph (lines 243-411): transit edges plus
origin, transfer and destination walking edges. -/
def builtGraph (sqrtFn : ℚ → ℚ) (iniLat iniLon finLat finLon : ℚ)
    (puntos : List Punto) (lineas_ruta : List LR) : Graph :=
  let gBus := buildTransit lineas_ruta
  let puntos_salida := puntos.filter (fun p => (alookup gBus p.id).isSome)
  let puntos_bus := puntosBus gBus puntos
  let candidatos_inicio :=
    (sortedByKey (fun p => distancia_cuadrada p.latitud p.longitud iniLat iniLon)
      puntos_salida).take MAX_ORIGIN_NEIGHBORS
  let g1 := candidatos_inicio.foldl
    (fun g p => addEdge g ORIGIN_NODE_ID (mkOriginEdge sqrtFn iniLat iniLon p)) gBus
  let g2 := addTransferEdges sqrtFn puntos_bus g1
  puntos_bus.foldl
    (fun g p =>
      if MAX_DEST_WALK_D2 < distancia_cuadrada p.latitud p.longitud finLat finLon
      then g
      else addEdge g p.id (mkDestEdge sqrtFn finLat finLon p)) g2

/-- `puntos_by_id` (lines 241, 287-288), virtual origin and destination included. -/
def puntosById (iniLat iniLon finLat finLon : ℚ) (puntos : List Punto) :
    List (Int × Punto) :=
  let pb0 := puntos.foldl (fun m p => ainsert m p.id p) []
  let pb1 := ainsert pb0 ORIGIN_NODE_ID ⟨ORIGIN_NODE_ID, iniLat, iniLon, "Origen"⟩
  ainsert pb1 DEST_NODE_ID ⟨DEST_NODE_ID, finLat, finLon, "Destino"⟩

/-- The Dijkstra phase of the planner on the built graph. -/
def postSearch (sqrtFn : ℚ → ℚ) (fuel : Nat) (iniLat iniLon finLat finLon : ℚ)
    (puntos : List Punto) (lineas_ruta : List LR) : Option SS :=
  searchLoop (builtGraph sqrtFn iniLat iniLon finLat finLon puntos lineas_ruta)
    (lutOf (buildTransit lineas_ruta)) K_RUTAS max_trasbordos fuel initSS

/-- `PlanificarRutaView.post` (lines 61-701) past request validation:
coordinates, the `Punto` snapshot and the ordered `LineaRuta` snapshot in,
one of three failures or up to `K_RUTAS` itineraries out.
`sqrtFn` stands for `math.sqrt`, `fuel` bounds the Dijkstra loop. -/
def post (sqrtFn : ℚ → ℚ) (fuel : Nat) (iniLat iniLon finLat finLon : ℚ)
    (puntos : List Punto) (lineas_ruta : List LR) : Option Outcome :=
  if puntos = [] then some Outcome.errNoPuntos
  else if buildTransit lineas_ruta = [] then some Outcome.errNoTramos
  else
    match postSearch sqrtFn fuel iniLat iniLon finLat finLon puntos lineas_ruta with
    | none => none
    | some ssF =>
      if ssF.dest = [] then some Outcome.notFound
      else
        some (Outcome.ok (ssF.dest.map (procesarRuta ssF.prev
          (puntosById iniLat iniLon finLat finLon puntos)
          (lutOf (buildTransit lineas_ruta)))))

/-! ### Predicates and auxiliary definitions used by the proofs -/

/-- Character lists all of whose characters are fixed by uppercasing. -/
def upperClosed (l : List Char) : Prop := ∀ c ∈ l, c.toUpper = c

/-- Well-formedness of the edge data: all edge times are non-negative
(the spec's §3 invariant "all times/distances are non-negative"). -/
abbrev timesNonneg (g : Graph) : Prop := ∀ b ∈ g, ∀ e ∈ b.2, 0 ≤ e.tiempo

/-- No edge re-enters the virtual origin node (true of every graph the builder
produces, since real stop ids are positive and the destination is `-1`). -/
abbrev noEdgeToOrigin (g : Graph) : Prop := ∀ b ∈ g, ∀ e ∈ b.2, e.to_punto_id ≠ ORIGIN_NODE_ID

/-- The loop invariant of the Dijkstra search.  `dist` and `prev` are read
through `alookup` (first binding wins, matching the overwrite semantics). -/
structure Inv (g : Graph) (lut : List (Nat × String)) (K maxT : Nat) (ss : SS) : Prop where
  distStart : alookup ss.dist startState = some 0
  rootOnly : ∀ s d, alookup ss.dist s = some d → alookup ss.prev s = none → s = startState
  distCap : ∀ pr ∈ ss.dist, pr.1.2.2 ≤ maxT
  pqCap : ∀ ent ∈ ss.pq, ent.trasb ≤ maxT
  pqDist : ∀ ent ∈ ss.pq, ∃ d, alookup ss.dist ent.key = some d ∧ d ≤ ent.cost
  prevEq : ∀ t pe, alookup ss.prev t = some pe →
    ∃ dp dt, alookup ss.dist pe.1 = some dp ∧ alookup ss.dist t = some dt ∧
      dt = dp + pe.2.tiempo + pen lut pe.1 pe.2 ∧ t = nextKey lut pe.1 pe.2 ∧
      pe.2 ∈ edgesOf g pe.1.1 ∧ ∀ ent ∈ ss.pq, dp ≤ ent.cost
  destOk : ∀ q ∈ ss.dest, alookup ss.dist q.1 = some q.2 ∧ q.1.1 = DEST_NODE_ID ∧
    ∀ ent ∈ ss.pq, q.2 ≤ ent.cost
  destLen : ss.dest.length ≤ K

/-- Facts available while the popped state `s` (of final cost `c`) is being
relaxed: the invariant, plus `c`'s minimality over the frontier and over every
predecessor and recorded destination cost. -/
structure RelaxCtx (g : Graph) (lut : List (Nat × String)) (K maxT : Nat)
    (s : SKey) (c : ℚ) (ss : SS) : Prop where
  inv : Inv g lut K maxT ss
  hdist : alookup ss.dist s = some c
  hmin : ∀ ent ∈ ss.pq, c ≤ ent.cost
  hprevc : ∀ t pe, alookup ss.prev t = some pe →
    ∃ dp, alookup ss.dist pe.1 = some dp ∧ dp ≤ c
  hdestc : ∀ q ∈ ss.dest, q.2 ≤ c

/-- Total transfer penalty charged along a forward path: state `i` of `sts`
takes edge `i` of `segs`. -/
def chainPen (lut : List (Nat × String)) : List SKey → List Edge → ℚ
  | s0 :: rest, e0 :: es => pen lut s0 e0 + chainPen lut rest es
  | _, _ => 0

/-- The `lineas_usadas_map` value built from a transit edge (lines 644-651). -/
def mkLineaInfo (e : Edge) : LineaInfo :=
  ⟨e.linea_codigo, e.linea_nombre, e.numero_ruta, e.linea_id⟩

def defaultRuta : Ruta := ⟨[], "", 0, 0, []⟩

/-! ### Concrete instances used in counterexamples and witnesses -/

/-- A degenerate stand-in for `math.sqrt` (all walking edges get time 0);
the search theorems quantify over the graph, so any oracle works here. -/
def zeroSqrt : ℚ → ℚ := fun _ => 0

/-- Exact square root on the squared distances occurring in the
reversal snapshot below. -/
def sqrtR : ℚ → ℚ := fun q => if q = 100 then 10 else 0

/-- Three stops on a line: A at the origin, B ten degrees away, C twenty. -/
def puntosR : List Punto := [⟨1, 0, 0, "A"⟩, ⟨2, 10, 0, "B"⟩, ⟨3, 20, 0, "C"⟩]

/-- One line `X` with its outbound route A→B and inbound route B→C (same base
code, different direction), so the only way from A to C rides both directions. -/
def lrsR : List LR :=
  [⟨1, 1, "X IDA", "Linea X", 1, [⟨1, 0, 0⟩, ⟨2, 5, 2⟩]⟩,
   ⟨2, 1, "X VUELTA", "Linea X", 2, [⟨2, 0, 0⟩, ⟨3, 5, 2⟩]⟩]

/-- The itineraries the planner returns on the reversal snapshot. -/
def rutasR : List Ruta :=
  match post sqrtR 50 0 0 20 0 puntosR lrsR with
  | some (Outcome.ok rs) => rs
  | _ => []

/-- Two-line snapshot (`"10"` then `"20"`) whose only origin-to-destination
path makes one genuine transfer. -/
def lrsT : List LR :=
  [⟨1, 1, "10", "Linea 10", 1, [⟨1, 0, 0⟩, ⟨2, 5, 2⟩]⟩,
   ⟨2, 2, "20", "Linea 20", 1, [⟨2, 0, 0⟩, ⟨3, 4, 1⟩]⟩]

def lutT : List (Nat × String) := lutOf (buildTransit lrsT)

def gT : Graph :=
  addEdge
    (addEdge (buildTransit lrsT) ORIGIN_NODE_ID (mkOriginEdge zeroSqrt 0 0 ⟨1, 0, 0, "A"⟩))
    3 (mkDestEdge zeroSqrt 0 0 ⟨3, 0, 0, "C"⟩)

def ssTF : SS := (searchLoop gT lutT K_RUTAS max_trasbordos 12 initSS).getD initSS

/-- Destination state of the transfer scenario: one genuine transfer. -/
def sT : SKey := ((-1 : Int), some 2, 1)

def stsT : List SKey := (reconChain ssTF.prev (ssTF.prev.length + 1) sT).1

def segsT : List Edge := (reconChain ssTF.prev (ssTF.prev.length + 1) sT).2

/-- Walking-only scenario: one stop colocated with origin and destination. -/
def gWalk : Graph :=
  addEdge
    (addEdge [] ORIGIN_NODE_ID (mkOriginEdge zeroSqrt 0 0 ⟨1, 0, 0, "P"⟩))
    1 (mkDestEdge zeroSqrt 0 0 ⟨1, 0, 0, "P"⟩)

def ssWalkF : SS := (searchLoop gWalk [] K_RUTAS max_trasbordos 10 initSS).getD initSS

def sWalk : SKey := ((-1 : Int), none, 0)

def stsW : List SKey := (reconChain ssWalkF.prev (ssWalkF.prev.length + 1) sWalk).1

def segsW : List Edge := (reconChain ssWalkF.prev (ssWalkF.prev.length + 1) sWalk).2

/-- Snapshot whose first line has code `"-IDA"`, which normalises to the empty
base code — data the models allow (`Linea.codigo` is a free-text field). -/
def lrsEmptyBase : List LR :=
  [⟨1, 1, "-IDA", "Linea rara", 1, [⟨1, 0, 0⟩, ⟨2, 5, 2⟩]⟩,
   ⟨2, 2, "22", "Linea 22", 1, [⟨2, 0, 0⟩, ⟨3, 4, 1⟩]⟩]

def gEmptyBase : Graph := buildTransit lrsEmptyBase

def lutEmptyBase : List (Nat × String) := lutOf gEmptyBase

/-- The transit edge of route 2 (line `"22"`) leaving stop 2. -/
def edgeLinea22 : Edge := (edgesOf gEmptyBase 2).headD defaultEdge

/-- The empty-base snapshot with origin and destination walking edges. -/
def gE : Graph :=
  addEdge
    (addEdge gEmptyBase ORIGIN_NODE_ID (mkOriginEdge zeroSqrt 0 0 ⟨1, 0, 0, "A"⟩))
    3 (mkDestEdge zeroSqrt 0 0 ⟨3, 0, 0, "C"⟩)

def ssEF : SS := (searchLoop gE lutEmptyBase K_RUTAS max_trasbordos 12 initSS).getD initSS

/-- Destination state of the empty-base scenario: the line change is not
counted (empty base code), so zero transfers. -/
def sE : SKey := ((-1 : Int), some 2, 0)

def stsE : List SKey := (reconChain ssEF.prev (ssEF.prev.length + 1) sE).1

def segsE : List Edge := (reconChain ssEF.prev (ssEF.prev.length + 1) sE).2

/-! ## Proofs

### String normalisation lemmas -/

theorem toNat_ofNatAux (n : Nat) (h : n.isValidChar) : (Char.ofNatAux n h).toNat = n := rfl

theorem charToUpper_idem (c : Char) : c.toUpper.toUpper = c.toUpper := by
  by_cases h : c.toNat ≥ 97 ∧ c.toNat ≤ 122
  · have hv : Nat.isValidChar (c.toNat - 32) := Or.inl (by omega)
    have h1 : c.toUpper = Char.ofNatAux (c.toNat - 32) hv := by
      rw [Char.toUpper]
      simp only [h, and_self, if_true, ge_iff_le]
      rw [Char.ofNat, dif_pos hv]
    have ht : (c.toUpper).toNat = c.toNat - 32 := by
      rw [h1]
      exact toNat_ofNatAux _ hv
    have hno : ¬ ((c.toUpper).toNat ≥ 97 ∧ (c.toUpper).toNat ≤ 122) := by
      rw [ht]
      omega
    conv_lhs => rw [Char.toUpper]
    simp only [if_neg hno]
  · have h1 : c.toUpper = c := by
      rw [Char.toUpper]
      simp only [if_neg h]
    rw [h1, h1]

theorem upperClosed_upperL (l : List Char) : upperClosed (upperL l) := by
  intro c hc
  obtain ⟨a, _, rfl⟩ := List.mem_map.mp hc
  exact charToUpper_idem a

theorem upperClosed_of_subset {l l' : List Char} (h : upperClosed l)
    (hsub : ∀ c ∈ l', c ∈ l) : upperClosed l' :=
  fun c hc => h c (hsub c hc)

theorem upperL_eq_self {l : List Char} (h : upperClosed l) : upperL l = l := by
  unfold upperL
  induction l with
  | nil => rfl
  | cons a t ih =>
    have := h a (by simp)
    simp only [List.map_cons, this, List.cons.injEq, true_and]
    exact ih (fun c hc => h c (List.mem_cons_of_mem a hc))

theorem mem_of_mem_trimL {c : Char} {l : List Char} (h : c ∈ trimL l) : c ∈ l := by
  unfold trimL at h
  rw [List.mem_reverse] at h
  have h2 := (List.dropWhile_sublist pySpace).subset h
  rw [List.mem_reverse] at h2
  exact (List.dropWhile_sublist pySpace).subset h2

theorem mem_of_mem_dropRightL {c : Char} {n : Nat} {l : List Char}
    (h : c ∈ dropRightL n l) : c ∈ l :=
  (List.take_sublist _ _).subset h

theorem mem_of_mem_stripPaso {c : Char} {x suf : List Char}
    (h : c ∈ stripPaso x suf) : c ∈ x := by
  unfold stripPaso at h
  split at h
  · exact mem_of_mem_dropRightL (mem_of_mem_trimL h)
  · exact h

theorem mem_of_mem_stripSufijos {c : Char} :
    ∀ (L : List (List Char)) (x : List Char), c ∈ stripSufijos L x → c ∈ x := by
  intro L
  induction L with
  | nil => intro x h; exact h
  | cons suf rest ih =>
    intro x h
    exact mem_of_mem_stripPaso (ih (stripPaso x suf) h)

theorem extraer_data (x : String) :
    (extraer_codigo_base x).data = stripSufijos sufijos (trimL (upperL x.data)) := by
  rw [extraer_codigo_base]

theorem upperClosed_extraer (x : String) : upperClosed (extraer_codigo_base x).data := by
  refine upperClosed_of_subset (upperClosed_upperL x.data) ?_
  intro c hc
  rw [extraer_data] at hc
  exact mem_of_mem_trimL (mem_of_mem_stripSufijos sufijos _ hc)

theorem trimL_eq_rdrop (l : List Char) :
    trimL l = List.rdropWhile pySpace (List.dropWhile pySpace l) := rfl

theorem dropWhile_eq_self_of_prefix {p : Char → Bool} {x y : List Char}
    (hx : x.dropWhile p = x) (hxy : y <+: x) : y.dropWhile p = y := by
  cases y with
  | nil => rfl
  | cons a t =>
    cases x with
    | nil => exact absurd hxy (by simp)
    | cons b s =>
      obtain ⟨rfl, -⟩ := List.cons_prefix_cons.mp hxy
      have hpb : p a = false := by
        by_contra hp
        rw [List.dropWhile_cons, if_pos (by simpa using hp)] at hx
        have hle := (List.dropWhile_sublist p (l := s)).length_le
        have := congrArg List.length hx
        simp at this
        omega
      rw [List.dropWhile_cons, if_neg (by simp [hpb])]

theorem trimL_idem (l : List Char) : trimL (trimL l) = trimL l := by
  rw [trimL_eq_rdrop, trimL_eq_rdrop]
  have h1 : List.dropWhile pySpace
      (List.rdropWhile pySpace (List.dropWhile pySpace l)) =
      List.rdropWhile pySpace (List.dropWhile pySpace l) :=
    dropWhile_eq_self_of_prefix (List.dropWhile_idempotent pySpace l)
      (List.rdropWhile_prefix pySpace _)
  rw [h1, List.rdropWhile_idempotent]

theorem trimL_stripPaso {c : List Char} (hc : trimL c = c) (suf : List Char) :
    trimL (stripPaso c suf) = stripPaso c suf := by
  unfold stripPaso
  split
  · exact trimL_idem _
  · exact hc

theorem trimL_stripSufijos :
    ∀ (L : List (List Char)) (c : List Char), trimL c = c →
      trimL (stripSufijos L c) = stripSufijos L c := by
  intro L
  induction L with
  | nil => intro c hc; exact hc
  | cons suf rest ih =>
    intro c hc
    exact ih _ (trimL_stripPaso hc suf)

theorem trimL_extraer (x : String) :
    trimL (extraer_codigo_base x).data = (extraer_codigo_base x).data := by
  rw [extraer_data]
  exact trimL_stripSufijos sufijos _ (trimL_idem _)

theorem stripSufijos_no_op {c : List Char} :
    ∀ {L : List (List Char)}, (∀ suf ∈ L, ¬ suf <:+ c) → stripSufijos L c = c := by
  intro L
  induction L with
  | nil => intro _; rfl
  | cons suf rest ih =>
    intro h
    have h1 : stripPaso c suf = c := by
      unfold stripPaso
      rw [if_neg (h suf (by simp))]
    rw [stripSufijos, h1]
    exact ih (fun s hs => h s (List.mem_cons_of_mem suf hs))

theorem stripSufijos_eq_foldl :
    ∀ (L : List (List Char)) (c : List Char), stripSufijos L c = L.foldl stripPaso c := by
  intro L
  induction L with
  | nil => intro c; rfl
  | cons suf rest ih => intro c; rw [stripSufijos, List.foldl_cons, ih]

/-! ### C7: base-code normalisation -/

/-- C7 (counterexample): the claim says `base_code` strips ONE trailing
directional token (the first match in priority order).  On `"X A IDA"` the code
strips `" IDA"` and then also `" A"` from the already-stripped string, giving
`"X"`, while the one-token reading gives `"X A"`. -/
theorem C7_counterexample :
    extraer_codigo_base "X A IDA" = "X" ∧ base_code_spec "X A IDA" = "X A" ∧
      extraer_codigo_base "X A IDA" ≠ base_code_spec "X A IDA" := by
  refine ⟨by decide, by decide, by decide⟩

/-- C7 (amended): `base_code` uppercases, trims, and then, for each token of the
fixed list in its fixed order, strips that token (re-trimming) if it is a
trailing suffix of the string obtained so far — so several distinct tokens can
be stripped, one occurrence each. -/
theorem C7_base_code_strips_each_token_in_order (codigo : String) :
    extraer_codigo_base codigo =
      ⟨sufijos.foldl stripPaso (trimL (upperL codigo.data))⟩ := by
  rw [extraer_codigo_base, stripSufijos_eq_foldl]

/-! ### C8: normalisation idempotence -/

/-- C8 (counterexample): `base_code` is NOT idempotent on all inputs:
`"18 A A"` normalises to `"18 A"`, which normalises further to `"18"`. -/
theorem C8_counterexample :
    extraer_codigo_base (extraer_codigo_base "18 A A") ≠ extraer_codigo_base "18 A A" := by
  decide

/-- C8 (amended): `base_code` is idempotent on every input whose normalised
form no longer ends in any directional token — the failing inputs are exactly
those whose first pass leaves another trailing token behind. -/
theorem C8_idempotent_on_suffix_free (x : String)
    (h : ∀ suf ∈ sufijos, ¬ suf <:+ (extraer_codigo_base x).data) :
    extraer_codigo_base (extraer_codigo_base x) = extraer_codigo_base x := by
  have hupper : upperL (extraer_codigo_base x).data = (extraer_codigo_base x).data :=
    upperL_eq_self (upperClosed_extraer x)
  have htrim := trimL_extraer x
  apply String.ext
  rw [extraer_data, hupper, htrim, stripSufijos_no_op h]

theorem C8_witness :
    (∀ suf ∈ sufijos, ¬ suf <:+ (extraer_codigo_base "18 IDA").data) ∧
      extraer_codigo_base (extraer_codigo_base "18 IDA") = extraer_codigo_base "18 IDA" :=
  ⟨by decide, C8_idempotent_on_suffix_free "18 IDA" (by decide)⟩

/-! ### C1: search transition semantics -/

/-- C1 (counterexample): the claim says a route-of-line change increments the
transfer counter exactly when the base codes differ.  In the snapshot
`lrsEmptyBase` the active line has base code `""` (from raw code `"-IDA"`) and
the edge's line has base code `"22"` — different base codes — yet the code's
truthiness guard takes the direction-reversal branch: penalty, no increment. -/
theorem C1_counterexample :
    alookup lutEmptyBase 1 = some "" ∧ edgeLinea22.linea_codigo_base = "22" ∧
      edgeLinea22.es_caminar = false ∧ edgeLinea22.linea_ruta_id = some 2 ∧
      some "" ≠ some edgeLinea22.linea_codigo_base ∧
      stepTransition lutEmptyBase (some 1) 0 edgeLinea22 =
        (some 2, 0, TRANSFER_PENALTY_MIN) := by
  decide

/-- C1 (amended): semantics of one edge relaxation.  A walking edge leaves
context, counter and penalty untouched.  A transit edge from context `none`
adopts the edge's route with no penalty.  A transit edge on the same route
changes nothing.  A transit edge onto a different route adopts the new route
and charges the 8-minute penalty; the counter is incremented exactly when the
current context's base code is known and non-empty, the edge's base code is
non-empty, and the two differ — otherwise (equal codes, or an empty or unknown
base code) the change is treated as a direction reversal: penalty only. -/
theorem C1_transition_semantics (lut : List (Nat × String)) (ctx : Option Nat)
    (k : Nat) (e : Edge) :
    (e.es_caminar = true → stepTransition lut ctx k e = (ctx, k, 0)) ∧
    (e.es_caminar = false → ∀ r, e.linea_ruta_id = some r →
      (ctx = none → stepTransition lut ctx k e = (some r, k, 0)) ∧
      (∀ c, ctx = some c → c = r → stepTransition lut ctx k e = (some c, k, 0)) ∧
      (∀ c, ctx = some c → c ≠ r →
        ((∃ a, alookup lut c = some a ∧ a ≠ "" ∧ e.linea_codigo_base ≠ "" ∧
            a ≠ e.linea_codigo_base) →
          stepTransition lut ctx k e = (some r, k + 1, TRANSFER_PENALTY_MIN)) ∧
        ((alookup lut c = none ∨ alookup lut c = some "" ∨ e.linea_codigo_base = "" ∨
            alookup lut c = some e.linea_codigo_base) →
          stepTransition lut ctx k e = (some r, k, TRANSFER_PENALTY_MIN)))) := by
  constructor
  · intro hw
    unfold stepTransition
    simp only [hw, if_true]
    cases ctx with
    | none => rfl
    | some c => simp
  · intro hw r hr
    refine ⟨?_, ?_, ?_⟩
    · intro hctx
      unfold stepTransition
      simp [hw, hr, hctx]
    · intro c hctx hcr
      unfold stepTransition
      simp [hw, hr, hctx, hcr]
    · intro c hctx hcr
      constructor
      · rintro ⟨a, ha, ha1, ha2, ha3⟩
        unfold stepTransition
        simp only [hw, Bool.false_eq_true, if_false, hr, hctx, ha]
        rw [if_neg hcr]
        rw [if_pos]
        simp only [truthyStr, Bool.and_eq_true, Bool.not_eq_true', beq_eq_false_iff_ne]
        refine ⟨⟨?_, ?_⟩, ?_⟩
        · simpa using ha1
        · simpa using ha2
        · simpa using ha3
      · intro hcase
        unfold stepTransition
        simp only [hw, Bool.false_eq_true, if_false, hr, hctx]
        rw [if_neg hcr]
        rw [if_neg]
        intro hcond
        simp only [truthyStr, Bool.and_eq_true] at hcond
        rcases hcase with h0 | h0 | h0 | h0 <;> rw [h0] at hcond <;> simp_all [truthyStr]

theorem C1_witness :
    (edgeLinea22.es_caminar = false ∧ edgeLinea22.linea_ruta_id = some 2) ∧
      stepTransition lutEmptyBase (some 2) 1 edgeLinea22 = (some 2, 1, 0) := by
  refine ⟨⟨by decide, by decide⟩, ?_⟩
  exact ((C1_transition_semantics lutEmptyBase (some 2) 1 edgeLinea22).2
    (by decide) 2 (by decide)).2.1 2 rfl rfl

/-! ### C6: walking time and distance model -/

theorem tiempo_formula (s : ℚ) :
    (0 < s → tiempo_desde_dist_km (s * DEG_TO_KM) = s * 111 * (14/10) / 5 * 60 * (15/10)) ∧
    (s ≤ 0 → tiempo_desde_dist_km (s * DEG_TO_KM) = 0) := by
  constructor
  · intro hs
    unfold tiempo_desde_dist_km DEG_TO_KM WALK_DISTANCE_FACTOR WALK_SPEED_KMH
      WALK_PENALTY_FACTOR
    rw [if_neg (by nlinarith)]
    ring
  · intro hs
    unfold tiempo_desde_dist_km DEG_TO_KM
    rw [if_pos (by nlinarith)]

/-- C6: every synthetic walking edge (origin, transfer and destination alike)
built from square distance `d2` — with `s = sqrtFn d2` standing for
`math.sqrt(d2)` — has time `((s * 111 * 1.4) / 5) * 60 * 1.5` minutes when
`s > 0`, time `0` when `s ≤ 0`, and stores the street-corrected distance
`s * 111 * 1.4`, not the straight-line value `s * 111`. -/
theorem C6_walking_time_and_distance (sqrtFn : ℚ → ℚ) (iniLat iniLon finLat finLon : ℚ)
    (p q : Punto) :
    ((0 < sqrtFn (distancia_cuadrada iniLat iniLon p.latitud p.longitud) →
        (mkOriginEdge sqrtFn iniLat iniLon p).tiempo =
          sqrtFn (distancia_cuadrada iniLat iniLon p.latitud p.longitud) * 111 * (14/10) / 5
            * 60 * (15/10)) ∧
      (sqrtFn (distancia_cuadrada iniLat iniLon p.latitud p.longitud) ≤ 0 →
        (mkOriginEdge sqrtFn iniLat iniLon p).tiempo = 0) ∧
      (mkOriginEdge sqrtFn iniLat iniLon p).distancia =
        sqrtFn (distancia_cuadrada iniLat iniLon p.latitud p.longitud) * 111 * (14/10)) ∧
    ((0 < sqrtFn (distancia_cuadrada p.latitud p.longitud q.latitud q.longitud) →
        (mkTransferEdge sqrtFn p q).tiempo =
          sqrtFn (distancia_cuadrada p.latitud p.longitud q.latitud q.longitud) * 111 * (14/10) / 5
            * 60 * (15/10)) ∧
      (sqrtFn (distancia_cuadrada p.latitud p.longitud q.latitud q.longitud) ≤ 0 →
        (mkTransferEdge sqrtFn p q).tiempo = 0) ∧
      (mkTransferEdge sqrtFn p q).distancia =
        sqrtFn (distancia_cuadrada p.latitud p.longitud q.latitud q.longitud) * 111 * (14/10)) ∧
    ((0 < sqrtFn (distancia_cuadrada p.latitud p.longitud finLat finLon) →
        (mkDestEdge sqrtFn finLat finLon p).tiempo =
          sqrtFn (distancia_cuadrada p.latitud p.longitud finLat finLon) * 111 * (14/10) / 5
            * 60 * (15/10)) ∧
      (sqrtFn (distancia_cuadrada p.latitud p.longitud finLat finLon) ≤ 0 →
        (mkDestEdge sqrtFn finLat finLon p).tiempo = 0) ∧
      (mkDestEdge sqrtFn finLat finLon p).distancia =
        sqrtFn (distancia_cuadrada p.latitud p.longitud finLat finLon) * 111 * (14/10)) := by
  refine ⟨⟨?_, ?_, ?_⟩, ⟨?_, ?_, ?_⟩, ⟨?_, ?_, ?_⟩⟩ <;>
    simp only [mkOriginEdge, mkTransferEdge, mkDestEdge]
  · exact (tiempo_formula _).1
  · exact (tiempo_formula _).2
  · unfold DEG_TO_KM WALK_DISTANCE_FACTOR
    ring
  · exact (tiempo_formula _).1
  · exact (tiempo_formula _).2
  · unfold DEG_TO_KM WALK_DISTANCE_FACTOR
    ring
  · exact (tiempo_formula _).1
  · exact (tiempo_formula _).2
  · unfold DEG_TO_KM WALK_DISTANCE_FACTOR
    ring

theorem C6_witness :
    (0 : ℚ) < (3/1000 : ℚ) ∧
      (mkOriginEdge (fun _ => 3/1000) 0 0 ⟨1, 3/1000, 0, ""⟩).tiempo =
        (3/1000) * 111 * (14/10) / 5 * 60 * (15/10) := by
  refine ⟨by norm_num, ?_⟩
  have h := (C6_walking_time_and_distance (fun _ => 3/1000) 0 0 0 0
    ⟨1, 3/1000, 0, ""⟩ ⟨1, 3/1000, 0, ""⟩).1.1
  exact h (by norm_num)

/-! ### Search machinery lemmas -/

theorem alookup_mem {κ β : Type} [DecidableEq κ] {l : List (κ × β)} {k : κ} {v : β}
    (h : alookup l k = some v) : (k, v) ∈ l := by
  induction l with
  | nil => simp [alookup] at h
  | cons p t ih =>
    obtain ⟨k', v'⟩ := p
    rw [alookup] at h
    split at h
    · obtain ⟨rfl⟩ := h
      rename_i heq
      subst heq
      exact List.mem_cons_self _ _
    · exact List.mem_cons_of_mem _ (ih h)

theorem alookup_cons {κ β : Type} [DecidableEq κ] (k a : κ) (v : β) (t : List (κ × β)) :
    alookup ((k, v) :: t) a = if a = k then some v else alookup t a := rfl

theorem popMin_eq_none {l : List PQE} (h : popMin l = none) : l = [] := by
  cases l with
  | nil => rfl
  | cons e rest =>
    rw [popMin] at h
    cases hrest : popMin rest with
    | none => rw [hrest] at h; exact absurd h (by simp)
    | some pr =>
      obtain ⟨m, r⟩ := pr
      rw [hrest] at h
      by_cases hc : e.cost ≤ m.cost <;> simp [hc] at h

theorem popMin_spec : ∀ {l : List PQE} {m : PQE} {r : List PQE}, popMin l = some (m, r) →
    m ∈ l ∧ (∀ x ∈ r, x ∈ l) ∧ (∀ x ∈ l, m.cost ≤ x.cost) := by
  intro l
  induction l with
  | nil => intro m r h; simp [popMin] at h
  | cons e rest ih =>
    intro m r h
    rw [popMin] at h
    cases hrest : popMin rest with
    | none =>
      rw [hrest] at h
      obtain ⟨rfl, rfl⟩ : e = m ∧ ([] : List PQE) = r := by
        simpa using h
      have hnil := popMin_eq_none hrest
      subst hnil
      refine ⟨List.mem_cons_self _ _, by simp, ?_⟩
      intro x hx
      simp at hx
      rw [hx]
    | some pr =>
      obtain ⟨m', r'⟩ := pr
      rw [hrest] at h
      obtain ⟨hm', hr', hmin'⟩ := ih hrest
      by_cases hc : e.cost ≤ m'.cost
      · simp only [hc, if_true, Option.some.injEq, Prod.mk.injEq] at h
        obtain ⟨rfl, rfl⟩ := h
        refine ⟨List.mem_cons_self _ _, fun x hx => List.mem_cons_of_mem _ hx, ?_⟩
        intro x hx
        rcases List.mem_cons.mp hx with rfl | hx'
        · exact le_refl _
        · exact le_trans hc (hmin' x hx')
      · simp only [hc, if_false, Option.some.injEq, Prod.mk.injEq] at h
        obtain ⟨rfl, rfl⟩ := h
        refine ⟨List.mem_cons_of_mem _ hm', ?_, ?_⟩
        · intro x hx
          rcases List.mem_cons.mp hx with rfl | hx'
          · exact List.mem_cons_self _ _
          · exact List.mem_cons_of_mem _ (hr' x hx')
        · intro x hx
          rcases List.mem_cons.mp hx with rfl | hx'
          · exact le_of_lt (lt_of_not_le hc)
          · exact hmin' x hx'

theorem stepTransition_walk0 (lut : List (Nat × String)) (ctx : Option Nat) (k : Nat)
    (e : Edge) (h : e.es_caminar = true) : stepTransition lut ctx k e = (ctx, k, 0) := by
  unfold stepTransition
  simp only [h, if_true]
  cases ctx with
  | none => rfl
  | some c => simp

theorem stepTransition_no_route (lut : List (Nat × String)) (ctx : Option Nat) (k : Nat)
    (e : Edge) (h1 : e.es_caminar = false) (h2 : e.linea_ruta_id = none) :
    stepTransition lut ctx k e = (ctx, k, 0) := by
  unfold stepTransition
  simp [h1, h2]

theorem stepTransition_board (lut : List (Nat × String)) (k : Nat) (e : Edge) {r : Nat}
    (h1 : e.es_caminar = false) (h2 : e.linea_ruta_id = some r) :
    stepTransition lut none k e = (some r, k, 0) := by
  unfold stepTransition
  simp [h1, h2]

theorem stepTransition_same (lut : List (Nat × String)) (k : Nat) (e : Edge) {c : Nat}
    (h1 : e.es_caminar = false) (h2 : e.linea_ruta_id = some c) :
    stepTransition lut (some c) k e = (some c, k, 0) := by
  unfold stepTransition
  simp [h1, h2]

theorem stepTransition_change (lut : List (Nat × String)) (k : Nat) (e : Edge) {r c : Nat}
    (h1 : e.es_caminar = false) (h2 : e.linea_ruta_id = some r) (h4 : c ≠ r) :
    stepTransition lut (some c) k e =
      if (truthyStr (alookup lut c) && truthyStr (some e.linea_codigo_base) &&
          !(alookup lut c == some e.linea_codigo_base)) = true
      then (some r, k + 1, TRANSFER_PENALTY_MIN)
      else (some r, k, TRANSFER_PENALTY_MIN) := by
  unfold stepTransition
  simp [h1, h2, h4]

theorem stepTransition_shape (lut : List (Nat × String)) (ctx : Option Nat) (k : Nat)
    (e : Edge) :
    (stepTransition lut ctx k e).2.1 = k ∧ (stepTransition lut ctx k e).2.2 = 0 ∨
    (stepTransition lut ctx k e).2.1 = k + 1 ∧
      (stepTransition lut ctx k e).2.2 = TRANSFER_PENALTY_MIN ∨
    (stepTransition lut ctx k e).2.1 = k ∧
      (stepTransition lut ctx k e).2.2 = TRANSFER_PENALTY_MIN := by
  cases hcam : e.es_caminar with
  | true => rw [stepTransition_walk0 lut ctx k e hcam]; exact Or.inl ⟨rfl, rfl⟩
  | false =>
    cases hlr : e.linea_ruta_id with
    | none => rw [stepTransition_no_route lut ctx k e hcam hlr]; exact Or.inl ⟨rfl, rfl⟩
    | some r =>
      cases ctx with
      | none => rw [stepTransition_board lut k e hcam hlr]; exact Or.inl ⟨rfl, rfl⟩
      | some c =>
        by_cases hcr : c = r
        · subst hcr
          rw [stepTransition_same lut k e hcam hlr]
          exact Or.inl ⟨rfl, rfl⟩
        · rw [stepTransition_change lut k e hcam hlr hcr]
          split
          · exact Or.inr (Or.inl ⟨rfl, rfl⟩)
          · exact Or.inr (Or.inr ⟨rfl, rfl⟩)

theorem pen_nonneg (lut : List (Nat × String)) (s : SKey) (e : Edge) :
    0 ≤ pen lut s e := by
  unfold pen
  rcases stepTransition_shape lut s.2.1 s.2.2 e with ⟨-, h⟩ | ⟨-, h⟩ | ⟨-, h⟩ <;>
    rw [h] <;> unfold TRANSFER_PENALTY_MIN <;> norm_num

theorem stepTransition_trasb_le (lut : List (Nat × String)) (ctx : Option Nat) (k : Nat)
    (e : Edge) : (stepTransition lut ctx k e).2.1 ≤ k + 1 := by
  rcases stepTransition_shape lut ctx k e with ⟨h, -⟩ | ⟨h, -⟩ | ⟨h, -⟩ <;> omega

theorem timesNonneg_edgesOf {g : Graph} (hg : ∀ b ∈ g, ∀ e ∈ b.2, 0 ≤ e.tiempo)
    {p : Int} {e : Edge} (he : e ∈ edgesOf g p) : 0 ≤ e.tiempo := by
  unfold edgesOf at he
  cases hl : alookup g p with
  | none => rw [hl] at he; simp at he
  | some es => rw [hl] at he; exact hg (p, es) (alookup_mem hl) e he

theorem noOrigin_edgesOf {g : Graph}
    (hg : ∀ b ∈ g, ∀ e ∈ b.2, e.to_punto_id ≠ ORIGIN_NODE_ID)
    {p : Int} {e : Edge} (he : e ∈ edgesOf g p) : e.to_punto_id ≠ ORIGIN_NODE_ID := by
  unfold edgesOf at he
  cases hl : alookup g p with
  | none => rw [hl] at he; simp at he
  | some es => rw [hl] at he; exact hg (p, es) (alookup_mem hl) e he

/-! ### Invariant preservation -/

theorem relaxOne_ctx {g : Graph} {lut : List (Nat × String)} {K maxT : Nat}
    {s : SKey} {c : ℚ} {ss : SS} {e : Edge}
    (hg1 : timesNonneg g) (hg2 : noEdgeToOrigin g)
    (hc : RelaxCtx g lut K maxT s c ss) (he : e ∈ edgesOf g s.1) :
    RelaxCtx g lut K maxT s c (relaxOne lut maxT s c ss e) := by
  obtain ⟨hinv, hdist, hmin, hprevc, hdestc⟩ := hc
  unfold relaxOne
  dsimp only
  rcases htr : stepTransition lut s.2.1 s.2.2 e with ⟨nl, nt, pw⟩
  dsimp only
  by_cases hskip : maxT < nt
  · rw [if_pos hskip]
    exact ⟨hinv, hdist, hmin, hprevc, hdestc⟩
  rw [if_neg hskip]
  have hpen : 0 ≤ pw := by
    have h0 := pen_nonneg lut s e
    unfold pen at h0
    rw [htr] at h0
    exact h0
  have htime : 0 ≤ e.tiempo := timesNonneg_edgesOf hg1 he
  have hto : e.to_punto_id ≠ ORIGIN_NODE_ID := noOrigin_edgesOf hg2 he
  by_cases hupd : c + e.tiempo + pw <
      (alookup ss.dist (e.to_punto_id, nl, nt)).getD INF
  case neg =>
    rw [if_neg hupd]
    exact ⟨hinv, hdist, hmin, hprevc, hdestc⟩
  rw [if_pos hupd]
  set nc : ℚ := c + e.tiempo + pw with hnc
  set ns : SKey := (e.to_punto_id, nl, nt) with hns
  have hcnc : c ≤ nc := by
    rw [hnc]
    linarith
  have hF1 : startState ≠ ns := by
    intro h
    apply hto
    have := congrArg Prod.fst h
    simpa [startState, hns] using this.symm
  have hF2 : s ≠ ns := by
    intro h
    rw [← h, hdist] at hupd
    simp only [Option.getD_some] at hupd
    linarith
  have hF3 : ∀ t pe, alookup ss.prev t = some pe → pe.1 ≠ ns := by
    intro t pe hpe h
    obtain ⟨dp, hdp, hdpc⟩ := hprevc t pe hpe
    rw [← h, hdp] at hupd
    simp only [Option.getD_some] at hupd
    linarith
  have hF4 : ∀ q ∈ ss.dest, q.1 ≠ ns := by
    intro q hq h
    obtain ⟨hq1, -, -⟩ := hinv.destOk q hq
    have hqc := hdestc q hq
    rw [← h, hq1] at hupd
    simp only [Option.getD_some] at hupd
    linarith
  refine ⟨⟨?_, ?_, ?_, ?_, ?_, ?_, ?_, ?_⟩, ?_, ?_, ?_, ?_⟩
  · -- distStart
    rw [alookup_cons, if_neg hF1]
    exact hinv.distStart
  · -- rootOnly
    intro s' d hd hp
    rw [alookup_cons] at hd hp
    by_cases h' : s' = ns
    · rw [if_pos h'] at hp
      exact absurd hp (by simp)
    · rw [if_neg h'] at hd hp
      exact hinv.rootOnly s' d hd hp
  · -- distCap
    intro pr hpr
    rcases List.mem_cons.mp hpr with rfl | hpr'
    · dsimp only [hns]
      omega
    · exact hinv.distCap pr hpr'
  · -- pqCap
    intro ent hent
    rcases List.mem_append.mp hent with hent' | hent'
    · exact hinv.pqCap ent hent'
    · simp only [List.mem_singleton] at hent'
      rw [hent']
      exact le_of_not_lt hskip
  · -- pqDist
    intro ent hent
    rcases List.mem_append.mp hent with hent' | hent'
    · obtain ⟨d, hd, hdc⟩ := hinv.pqDist ent hent'
      by_cases hk : ent.key = ns
      · refine ⟨nc, ?_, ?_⟩
        · rw [alookup_cons, if_pos hk]
        · rw [hk] at hd
          rw [hd] at hupd
          simp only [Option.getD_some] at hupd
          linarith
      · exact ⟨d, by rw [alookup_cons, if_neg hk]; exact hd, hdc⟩
    · simp only [List.mem_singleton] at hent'
      rw [hent']
      refine ⟨nc, ?_, le_refl _⟩
      have : (PQE.mk nc e.to_punto_id nl nt).key = ns := rfl
      rw [alookup_cons, if_pos this]
  · -- prevEq
    intro t pe hpe
    rw [alookup_cons] at hpe
    by_cases ht : t = ns
    · rw [if_pos ht] at hpe
      obtain rfl : ((s, e) : SKey × Edge) = pe := by simpa using hpe
      refine ⟨c, nc, ?_, ?_, ?_, ?_, he, ?_⟩
      · rw [alookup_cons, if_neg hF2]
        exact hdist
      · rw [alookup_cons, if_pos ht]
      · unfold pen
        rw [htr]
      · rw [ht]
        unfold nextKey
        rw [htr]
      · intro ent hent
        rcases List.mem_append.mp hent with hent' | hent'
        · exact hmin ent hent'
        · simp only [List.mem_singleton] at hent'
          rw [hent']
          exact hcnc
    · rw [if_neg ht] at hpe
      obtain ⟨dp, dt, h1, h2, h3, h4, h5, h6⟩ := hinv.prevEq t pe hpe
      have hpe1 : pe.1 ≠ ns := hF3 t pe hpe
      refine ⟨dp, dt, ?_, ?_, h3, h4, h5, ?_⟩
      · rw [alookup_cons, if_neg hpe1]
        exact h1
      · rw [alookup_cons, if_neg ht]
        exact h2
      · intro ent hent
        rcases List.mem_append.mp hent with hent' | hent'
        · exact h6 ent hent'
        · simp only [List.mem_singleton] at hent'
          rw [hent']
          obtain ⟨dp', hdp', hdpc'⟩ := hprevc t pe hpe
          rw [h1] at hdp'
          obtain rfl : dp = dp' := by simpa using hdp'
          exact le_trans hdpc' hcnc
  · -- destOk
    intro q hq
    obtain ⟨hq1, hq2, hq3⟩ := hinv.destOk q hq
    refine ⟨?_, hq2, ?_⟩
    · rw [alookup_cons, if_neg (hF4 q hq)]
      exact hq1
    · intro ent hent
      rcases List.mem_append.mp hent with hent' | hent'
      · exact hq3 ent hent'
      · simp only [List.mem_singleton] at hent'
        rw [hent']
        exact le_trans (hdestc q hq) hcnc
  · -- destLen
    exact hinv.destLen
  · -- hdist preserved
    rw [alookup_cons, if_neg hF2]
    exact hdist
  · -- hmin preserved
    intro ent hent
    rcases List.mem_append.mp hent with hent' | hent'
    · exact hmin ent hent'
    · simp only [List.mem_singleton] at hent'
      rw [hent']
      exact hcnc
  · -- hprevc preserved
    intro t pe hpe
    rw [alookup_cons] at hpe
    by_cases ht : t = ns
    · rw [if_pos ht] at hpe
      obtain rfl : ((s, e) : SKey × Edge) = pe := by simpa using hpe
      refine ⟨c, ?_, le_refl _⟩
      rw [alookup_cons, if_neg hF2]
      exact hdist
    · rw [if_neg ht] at hpe
      obtain ⟨dp, hdp, hdpc⟩ := hprevc t pe hpe
      refine ⟨dp, ?_, hdpc⟩
      rw [alookup_cons, if_neg (hF3 t pe hpe)]
      exact hdp
  · -- hdestc preserved
    exact hdestc

theorem relax_fold_ctx {g : Graph} {lut : List (Nat × String)} {K maxT : Nat}
    {s : SKey} {c : ℚ} (hg1 : timesNonneg g) (hg2 : noEdgeToOrigin g) :
    ∀ (es : List Edge) (ss : SS), RelaxCtx g lut K maxT s c ss →
      (∀ e ∈ es, e ∈ edgesOf g s.1) →
      RelaxCtx g lut K maxT s c (es.foldl (relaxOne lut maxT s c) ss) := by
  intro es
  induction es with
  | nil => intro ss hc _; exact hc
  | cons e t ih =>
    intro ss hc hes
    rw [List.foldl_cons]
    exact ih _ (relaxOne_ctx hg1 hg2 hc (hes e (by simp)))
      (fun e' he' => hes e' (List.mem_cons_of_mem e he'))

theorem relaxOne_dest (lut : List (Nat × String)) (maxT : Nat) (s : SKey) (c : ℚ)
    (ss : SS) (e : Edge) : (relaxOne lut maxT s c ss e).dest = ss.dest := by
  unfold relaxOne
  dsimp only
  split
  · rfl
  · split <;> rfl

theorem relax_fold_dest (lut : List (Nat × String)) (maxT : Nat) (s : SKey) (c : ℚ) :
    ∀ (es : List Edge) (ss : SS), (es.foldl (relaxOne lut maxT s c) ss).dest = ss.dest := by
  intro es
  induction es with
  | nil => intro ss; rfl
  | cons e t ih =>
    intro ss
    rw [List.foldl_cons, ih, relaxOne_dest]

theorem Inv_shrink {g : Graph} {lut : List (Nat × String)} {K maxT : Nat} {ss : SS}
    (hinv : Inv g lut K maxT ss) {rest : List PQE} (hsub : ∀ x ∈ rest, x ∈ ss.pq) :
    Inv g lut K maxT { ss with pq := rest } := by
  refine ⟨hinv.distStart, hinv.rootOnly, hinv.distCap, ?_, ?_, ?_, ?_, hinv.destLen⟩
  · exact fun ent hent => hinv.pqCap ent (hsub ent hent)
  · exact fun ent hent => hinv.pqDist ent (hsub ent hent)
  · intro t pe hpe
    obtain ⟨dp, dt, h1, h2, h3, h4, h5, h6⟩ := hinv.prevEq t pe hpe
    exact ⟨dp, dt, h1, h2, h3, h4, h5, fun ent hent => h6 ent (hsub ent hent)⟩
  · intro q hq
    obtain ⟨h1, h2, h3⟩ := hinv.destOk q hq
    exact ⟨h1, h2, fun ent hent => h3 ent (hsub ent hent)⟩

theorem Inv_init (g : Graph) (lut : List (Nat × String)) (K maxT : Nat) :
    Inv g lut K maxT initSS := by
  refine ⟨?_, ?_, ?_, ?_, ?_, ?_, ?_, ?_⟩
  · simp [initSS, alookup]
  · intro s d hd _
    unfold initSS at hd
    rw [alookup_cons] at hd
    by_cases h : s = startState
    · exact h
    · rw [if_neg h] at hd
      exact absurd hd (by simp [alookup])
  · intro pr hpr
    simp only [initSS, List.mem_singleton] at hpr
    rw [hpr]
    simp [startState]
  · intro ent hent
    simp only [initSS, List.mem_singleton] at hent
    rw [hent]
    simp
  · intro ent hent
    simp only [initSS, List.mem_singleton] at hent
    subst hent
    refine ⟨0, ?_, le_refl _⟩
    have hk : (PQE.mk 0 ORIGIN_NODE_ID none 0).key = startState := rfl
    rw [hk]
    simp [initSS, alookup]
  · intro t pe hpe
    exact absurd hpe (by simp [initSS, alookup])
  · intro q hq
    exact absurd hq (by simp [initSS])
  · simp [initSS]

theorem searchLoop_inv {g : Graph} {lut : List (Nat × String)} {K maxT : Nat}
    (hg1 : timesNonneg g) (hg2 : noEdgeToOrigin g) :
    ∀ (fuel : Nat) (ss ssF : SS), Inv g lut K maxT ss →
      searchLoop g lut K maxT fuel ss = some ssF → Inv g lut K maxT ssF := by
  intro fuel
  induction fuel with
  | zero =>
    intro ss ssF _ h
    exact absurd h (by simp [searchLoop])
  | succ n ih =>
    intro ss ssF hinv hrun
    rw [searchLoop] at hrun
    by_cases hK : K ≤ ss.dest.length
    · rw [if_pos hK] at hrun
      obtain rfl : ss = ssF := by simpa using hrun
      exact hinv
    rw [if_neg hK] at hrun
    cases hpop : popMin ss.pq with
    | none =>
      rw [hpop] at hrun
      obtain rfl : ss = ssF := by simpa using hrun
      exact hinv
    | some pr =>
      obtain ⟨ent, rest⟩ := pr
      rw [hpop] at hrun
      dsimp only at hrun
      obtain ⟨hm, hsub, hminl⟩ := popMin_spec hpop
      obtain ⟨d, hd, hdc⟩ := hinv.pqDist ent hm
      rw [hd] at hrun
      dsimp only at hrun
      have hinv1 : Inv g lut K maxT { ss with pq := rest } := Inv_shrink hinv hsub
      by_cases hstale : d < ent.cost
      · rw [if_pos hstale] at hrun
        exact ih _ _ hinv1 hrun
      rw [if_neg hstale] at hrun
      have hdce : d = ent.cost := le_antisymm hdc (le_of_not_lt hstale)
      by_cases hde : ent.punto = DEST_NODE_ID
      · rw [if_pos hde] at hrun
        refine ih _ _ ?_ hrun
        refine ⟨hinv1.distStart, hinv1.rootOnly, hinv1.distCap, hinv1.pqCap,
          hinv1.pqDist, hinv1.prevEq, ?_, ?_⟩
        · intro q hq
          rcases List.mem_append.mp hq with hq' | hq'
          · exact hinv1.destOk q hq'
          · simp only [List.mem_singleton] at hq'
            subst hq'
            refine ⟨?_, hde, ?_⟩
            · rw [← hdce]
              exact hd
            · intro x hx
              exact hminl x (hsub x hx)
        · simp only [List.length_append, List.length_singleton]
          omega
      · rw [if_neg hde] at hrun
        refine ih _ _ ?_ hrun
        have hctx : RelaxCtx g lut K maxT ent.key ent.cost { ss with pq := rest } := by
          refine ⟨hinv1, ?_, ?_, ?_, ?_⟩
          · rw [← hdce]
            exact hd
          · intro x hx
            exact hminl x (hsub x hx)
          · intro t pe hpe
            obtain ⟨dp, dt, h1, h2, h3, h4, h5, h6⟩ := hinv.prevEq t pe hpe
            exact ⟨dp, h1, h6 ent hm⟩
          · intro q hq
            obtain ⟨h1, h2, h3⟩ := hinv.destOk q hq
            exact h3 ent hm
        exact (relax_fold_ctx hg1 hg2 _ _ hctx (fun e he => he)).inv

theorem searchLoop_destLen {g : Graph} {lut : List (Nat × String)} {K maxT : Nat} :
    ∀ (fuel : Nat) (ss ssF : SS), searchLoop g lut K maxT fuel ss = some ssF →
      ss.dest.length ≤ K → ssF.dest.length ≤ K := by
  intro fuel
  induction fuel with
  | zero =>
    intro ss ssF h
    exact absurd h (by simp [searchLoop])
  | succ n ih =>
    intro ss ssF hrun hlen
    rw [searchLoop] at hrun
    by_cases hK : K ≤ ss.dest.length
    · rw [if_pos hK] at hrun
      obtain rfl : ss = ssF := by simpa using hrun
      exact hlen
    rw [if_neg hK] at hrun
    cases hpop : popMin ss.pq with
    | none =>
      rw [hpop] at hrun
      obtain rfl : ss = ssF := by simpa using hrun
      exact hlen
    | some pr =>
      obtain ⟨ent, rest⟩ := pr
      rw [hpop] at hrun
      dsimp only at hrun
      cases hd : alookup ss.dist ent.key with
      | some d =>
        rw [hd] at hrun
        dsimp only at hrun
        by_cases hstale : d < ent.cost
        · rw [if_pos hstale] at hrun
          exact ih _ _ hrun hlen
        rw [if_neg hstale] at hrun
        by_cases hde : ent.punto = DEST_NODE_ID
        · rw [if_pos hde] at hrun
          refine ih _ _ hrun ?_
          simp only [List.length_append, List.length_singleton]
          omega
        · rw [if_neg hde] at hrun
          refine ih _ _ hrun ?_
          rw [relax_fold_dest]
          exact hlen
      | none =>
        rw [hd] at hrun
        dsimp only at hrun
        by_cases hde : ent.punto = DEST_NODE_ID
        · rw [if_pos hde] at hrun
          refine ih _ _ hrun ?_
          simp only [List.length_append, List.length_singleton]
          omega
        · rw [if_neg hde] at hrun
          refine ih _ _ hrun ?_
          rw [relax_fold_dest]
          exact hlen

theorem searchLoop_exhausted {g : Graph} {lut : List (Nat × String)} {K maxT : Nat} :
    ∀ (fuel : Nat) (ss ssF : SS), searchLoop g lut K maxT fuel ss = some ssF →
      ssF.dest.length < K → ssF.pq = [] := by
  intro fuel
  induction fuel with
  | zero =>
    intro ss ssF h
    exact absurd h (by simp [searchLoop])
  | succ n ih =>
    intro ss ssF hrun hlt
    rw [searchLoop] at hrun
    by_cases hK : K ≤ ss.dest.length
    · rw [if_pos hK] at hrun
      obtain rfl : ss = ssF := by simpa using hrun
      omega
    rw [if_neg hK] at hrun
    cases hpop : popMin ss.pq with
    | none =>
      rw [hpop] at hrun
      obtain rfl : ss = ssF := by simpa using hrun
      exact popMin_eq_none hpop
    | some pr =>
      obtain ⟨ent, rest⟩ := pr
      rw [hpop] at hrun
      dsimp only at hrun
      cases hd : alookup ss.dist ent.key with
      | some d =>
        rw [hd] at hrun
        dsimp only at hrun
        by_cases hstale : d < ent.cost
        · rw [if_pos hstale] at hrun
          exact ih _ _ hrun hlt
        rw [if_neg hstale] at hrun
        by_cases hde : ent.punto = DEST_NODE_ID
        · rw [if_pos hde] at hrun
          exact ih _ _ hrun hlt
        · rw [if_neg hde] at hrun
          exact ih _ _ hrun hlt
      | none =>
        rw [hd] at hrun
        dsimp only at hrun
        by_cases hde : ent.punto = DEST_NODE_ID
        · rw [if_pos hde] at hrun
          exact ih _ _ hrun hlt
        · rw [if_neg hde] at hrun
          exact ih _ _ hrun hlt

/-! ### C2: transfer-cap invariant -/

/-- C2: in any completed run of the search, every binding ever inserted into
the distance map (insertions shadow, they never delete), every frontier entry
and every accepted destination state carries at most `max_trasbordos = 2`
transfers; and a relaxation whose resulting transfer count exceeds the cap
returns the loop state unchanged (it is pruned before relaxation). -/
theorem C2_transfer_cap (g : Graph) (lut : List (Nat × String)) (fuel : Nat) (ssF : SS)
    (hg1 : timesNonneg g) (hg2 : noEdgeToOrigin g)
    (hrun : searchLoop g lut K_RUTAS max_trasbordos fuel initSS = some ssF) :
    (∀ pr ∈ ssF.dist, pr.1.2.2 ≤ max_trasbordos) ∧
    (∀ ent ∈ ssF.pq, ent.trasb ≤ max_trasbordos) ∧
    (∀ q ∈ ssF.dest, q.1.2.2 ≤ max_trasbordos) ∧
    (∀ (lut' : List (Nat × String)) (s : SKey) (c : ℚ) (ss : SS) (e : Edge),
      max_trasbordos < (stepTransition lut' s.2.1 s.2.2 e).2.1 →
      relaxOne lut' max_trasbordos s c ss e = ss) := by
  have hinv := searchLoop_inv hg1 hg2 fuel initSS ssF
    (Inv_init g lut K_RUTAS max_trasbordos) hrun
  refine ⟨hinv.distCap, hinv.pqCap, ?_, ?_⟩
  · intro q hq
    obtain ⟨h1, -, -⟩ := hinv.destOk q hq
    exact hinv.distCap (q.1, q.2) (alookup_mem h1)
  · intro lut' s c ss e h
    unfold relaxOne
    dsimp only
    rw [if_pos h]

theorem C2_witness :
    timesNonneg gT ∧ noEdgeToOrigin gT ∧
      searchLoop gT lutT K_RUTAS max_trasbordos 12 initSS = some ssTF ∧
      (∀ q ∈ ssTF.dest, q.1.2.2 ≤ max_trasbordos) :=
  ⟨by with_unfolding_all decide, by with_unfolding_all decide,
    by with_unfolding_all decide,
    (C2_transfer_cap gT lutT 12 ssTF (by with_unfolding_all decide)
      (by with_unfolding_all decide) (by with_unfolding_all decide)).2.2.1⟩

/-! ### Chain lemmas for the reconstruction -/

theorem reconChain_shape (prev : PrevMap) :
    ∀ (fuel : Nat) (s : SKey) (sts : List SKey) (segs : List Edge),
      reconChain prev fuel s = (sts, segs) →
      sts ≠ [] ∧ sts.length = segs.length + 1 ∧ sts.getLast? = some s := by
  intro fuel
  induction fuel with
  | zero =>
    intro s sts segs h
    rw [reconChain] at h
    obtain ⟨rfl, rfl⟩ : [s] = sts ∧ ([] : List Edge) = segs := by simpa using h
    exact ⟨by simp, by simp, by simp⟩
  | succ n ih =>
    intro s sts segs h
    rw [reconChain] at h
    cases hp : alookup prev s with
    | none =>
      rw [hp] at h
      obtain ⟨rfl, rfl⟩ : [s] = sts ∧ ([] : List Edge) = segs := by simpa using h
      exact ⟨by simp, by simp, by simp⟩
    | some pe =>
      obtain ⟨p, e⟩ := pe
      rw [hp] at h
      dsimp only at h
      cases hr : reconChain prev n p with
      | mk sts' segs' =>
        rw [hr] at h
        dsimp only at h
        obtain ⟨rfl, rfl⟩ : sts' ++ [s] = sts ∧ segs' ++ [e] = segs := by simpa using h
        obtain ⟨h1, h2, h3⟩ := ih p sts' segs' hr
        refine ⟨by simp, by simp [h2], ?_⟩
        rw [List.getLast?_concat]

theorem chainPen_concat (lut : List (Nat × String)) :
    ∀ (sts : List SKey) (segs : List Edge) (p s : SKey) (e : Edge),
      sts.length = segs.length + 1 → sts.getLast? = some p →
      chainPen lut (sts ++ [s]) (segs ++ [e]) = chainPen lut sts segs + pen lut p e := by
  intro sts
  induction sts with
  | nil => intro segs p s e hlen; simp at hlen
  | cons a rest ih =>
    intro segs p s e hlen hlast
    cases segs with
    | nil =>
      have : rest = [] := by
        simpa using congrArg (fun l => l) (List.length_eq_zero.mp (by simpa using hlen))
      subst this
      obtain rfl : a = p := by simpa using hlast
      simp [chainPen]
    | cons b segs' =>
      have hlen' : rest.length = segs'.length + 1 := by simpa using hlen
      have hrest : rest ≠ [] := by
        intro h
        rw [h] at hlen'
        simp at hlen'
      have hlast' : rest.getLast? = some p := by
        cases rest with
        | nil => exact absurd rfl hrest
        | cons a' rest' => rw [List.getLast?_cons_cons] at hlast; exact hlast
      rw [List.cons_append, List.cons_append, chainPen, chainPen,
        ih segs' p s e hlen' hlast']
      ring

theorem head?_concat_of_ne_nil {α : Type} {l : List α} (a : α) (h : l ≠ []) :
    (l ++ [a]).head? = l.head? := by
  cases l with
  | nil => exact absurd rfl h
  | cons b t => simp

theorem reconChain_cost {g : Graph} {lut : List (Nat × String)} {K maxT : Nat} {ss : SS}
    (hinv : Inv g lut K maxT ss) :
    ∀ (fuel : Nat) (s : SKey) (d : ℚ) (sts : List SKey) (segs : List Edge),
      alookup ss.dist s = some d →
      reconChain ss.prev fuel s = (sts, segs) →
      sts.head? = some startState →
      d = (segs.map (fun e => e.tiempo)).sum + chainPen lut sts segs := by
  intro fuel
  induction fuel with
  | zero =>
    intro s d sts segs hd hrec hhead
    rw [reconChain] at hrec
    obtain ⟨rfl, rfl⟩ : [s] = sts ∧ ([] : List Edge) = segs := by simpa using hrec
    obtain rfl : s = startState := by simpa using hhead
    rw [hinv.distStart] at hd
    obtain rfl : (0 : ℚ) = d := by simpa using hd
    simp [chainPen]
  | succ n ih =>
    intro s d sts segs hd hrec hhead
    rw [reconChain] at hrec
    cases hp : alookup ss.prev s with
    | none =>
      rw [hp] at hrec
      obtain ⟨rfl, rfl⟩ : [s] = sts ∧ ([] : List Edge) = segs := by simpa using hrec
      obtain rfl : s = startState := by simpa using hhead
      rw [hinv.distStart] at hd
      obtain rfl : (0 : ℚ) = d := by simpa using hd
      simp [chainPen]
    | some pe =>
      obtain ⟨p, e⟩ := pe
      rw [hp] at hrec
      dsimp only at hrec
      cases hr : reconChain ss.prev n p with
      | mk sts' segs' =>
        rw [hr] at hrec
        dsimp only at hrec
        obtain ⟨rfl, rfl⟩ : sts' ++ [s] = sts ∧ segs' ++ [e] = segs := by simpa using hrec
        obtain ⟨dp, dt, h1, h2, h3, h4, h5, h6⟩ := hinv.prevEq s (p, e) hp
        rw [hd] at h2
        obtain rfl : d = dt := by simpa using h2
        obtain ⟨hne, hlen, hlast⟩ := reconChain_shape ss.prev n p sts' segs' hr
        have hhead' : sts'.head? = some startState := by
          rw [head?_concat_of_ne_nil s hne] at hhead
          exact hhead
        have hIH := ih p dp sts' segs' h1 hr hhead'
        rw [List.map_append, List.sum_append,
          chainPen_concat lut sts' segs' p s e hlen hlast]
        simp only [List.map_cons, List.map_nil, List.sum_cons, List.sum_nil]
        rw [h3, hIH]
        ring

theorem reconChain_walk_ctx {g : Graph} {lut : List (Nat × String)} {K maxT : Nat}
    {ss : SS} (hinv : Inv g lut K maxT ss) :
    ∀ (fuel : Nat) (s : SKey) (sts : List SKey) (segs : List Edge),
      reconChain ss.prev fuel s = (sts, segs) →
      sts.head? = some startState →
      (∀ e ∈ segs, e.es_caminar = true) →
      s.2.1 = none ∧ s.2.2 = 0 := by
  intro fuel
  induction fuel with
  | zero =>
    intro s sts segs hrec hhead _
    rw [reconChain] at hrec
    obtain ⟨rfl, rfl⟩ : [s] = sts ∧ ([] : List Edge) = segs := by simpa using hrec
    obtain rfl : s = startState := by simpa using hhead
    exact ⟨rfl, rfl⟩
  | succ n ih =>
    intro s sts segs hrec hhead hwalk
    rw [reconChain] at hrec
    cases hp : alookup ss.prev s with
    | none =>
      rw [hp] at hrec
      obtain ⟨rfl, rfl⟩ : [s] = sts ∧ ([] : List Edge) = segs := by simpa using hrec
      obtain rfl : s = startState := by simpa using hhead
      exact ⟨rfl, rfl⟩
    | some pe =>
      obtain ⟨p, e⟩ := pe
      rw [hp] at hrec
      dsimp only at hrec
      cases hr : reconChain ss.prev n p with
      | mk sts' segs' =>
        rw [hr] at hrec
        dsimp only at hrec
        obtain ⟨rfl, rfl⟩ : sts' ++ [s] = sts ∧ segs' ++ [e] = segs := by simpa using hrec
        obtain ⟨dp, dt, h1, h2, h3, h4, h5, h6⟩ := hinv.prevEq s (p, e) hp
        obtain ⟨hne, -, -⟩ := reconChain_shape ss.prev n p sts' segs' hr
        have hhead' : sts'.head? = some startState := by
          rw [head?_concat_of_ne_nil s hne] at hhead
          exact hhead
        have hwalk' : ∀ e' ∈ segs', e'.es_caminar = true :=
          fun e' he' => hwalk e' (List.mem_append.mpr (Or.inl he'))
        have hew : e.es_caminar = true := hwalk e (List.mem_append.mpr (Or.inr (by simp)))
        obtain ⟨hp1, hp2⟩ := ih p sts' segs' hr hhead' hwalk'
        rw [h4]
        unfold nextKey
        rw [stepTransition_walk0 lut p.2.1 p.2.2 e hew]
        exact ⟨hp1, hp2⟩

theorem puntosDataGo_last (pb : List (Int × Punto)) (flags : List (Option String)) :
    ∀ (nodeIds : List Int) (segs : List Edge) (idx : Nat) (t0 d0 : ℚ),
      nodeIds.length = segs.length → nodeIds ≠ [] →
      ∃ last, (puntosDataGo pb flags idx t0 d0 nodeIds segs).getLast? = some last ∧
        last.tiempo_acumulado = t0 + (segs.map (fun e => e.tiempo)).sum ∧
        last.distancia_acumulada = d0 + (segs.map (fun e => e.distancia)).sum := by
  intro nodeIds
  induction nodeIds with
  | nil => intro segs idx t0 d0 _ hne; exact absurd rfl hne
  | cons pid rest ih =>
    intro segs idx t0 d0 hlen _
    cases segs with
    | nil => simp at hlen
    | cons e es =>
      rw [puntosDataGo]
      by_cases hrest : rest = []
      · subst hrest
        obtain rfl : es = [] := by simpa using hlen.symm
        have hnil : puntosDataGo pb flags (idx + 1) (t0 + e.tiempo) (d0 + e.distancia)
            [] [] = [] := rfl
        rw [hnil]
        refine ⟨_, rfl, ?_, ?_⟩
        · simp
        · simp
      · have hlen' : rest.length = es.length := by simpa using hlen
        obtain ⟨last, hl, hlt, hld⟩ := ih es (idx + 1) (t0 + e.tiempo) (d0 + e.distancia)
          hlen' hrest
        refine ⟨last, ?_, ?_, ?_⟩
        · rw [List.getLast?_cons, hl]
          simp
        · rw [hlt]
          simp only [List.map_cons, List.sum_cons]
          ring
        · rw [hld]
          simp only [List.map_cons, List.sum_cons]
          ring

theorem puntosData_last (pb : List (Int × Punto)) (flags : List (Option String))
    (nodeIds : List Int) (segs : List Edge) (hlen : nodeIds.length = segs.length + 1) :
    ∃ last, (puntosData pb flags nodeIds segs).getLast? = some last ∧
      last.tiempo_acumulado = (segs.map (fun e => e.tiempo)).sum ∧
      last.distancia_acumulada = (segs.map (fun e => e.distancia)).sum := by
  cases nodeIds with
  | nil => simp at hlen
  | cons pid rest =>
    rw [puntosData]
    by_cases hrest : rest = []
    · subst hrest
      obtain rfl : segs = [] := by simpa using hlen
      have hnil : puntosDataGo pb flags 1 0 0 [] [] = [] := rfl
      rw [hnil]
      exact ⟨_, rfl, rfl, rfl⟩
    · have hlen' : rest.length = segs.length := by simpa using hlen
      obtain ⟨last, hl, hlt, hld⟩ := puntosDataGo_last pb flags rest segs 1 0 0 hlen' hrest
      refine ⟨last, ?_, by rw [hlt]; ring, by rw [hld]; ring⟩
      rw [List.getLast?_cons, hl]
      simp

/-! ### C3: total-time consistency -/

/-- C3: for every accepted itinerary (destination state `s` with recorded cost
`c`) whose predecessor chain is fully reconstructed back to the start state,
the cumulative time at the last emitted stop equals the sum of the leg times of
the traversed edges, the cumulative distance equals the sum of the leg
distances, and the recorded cost `c` equals that leg-time sum plus the transfer
penalties charged during relaxation along the path — i.e. cumulative time =
`c` minus the penalties. -/
theorem C3_total_time_consistency (g : Graph) (lut : List (Nat × String)) (fuel : Nat)
    (ssF : SS) (hg1 : timesNonneg g) (hg2 : noEdgeToOrigin g)
    (hrun : searchLoop g lut K_RUTAS max_trasbordos fuel initSS = some ssF)
    (s : SKey) (c : ℚ) (hdest : (s, c) ∈ ssF.dest)
    (f : Nat) (sts : List SKey) (segs : List Edge)
    (hrec : reconChain ssF.prev f s = (sts, segs))
    (hroot : sts.head? = some startState)
    (pb : List (Int × Punto)) (flags : List (Option String)) :
    ∃ pd, (puntosData pb flags (sts.map (fun st => st.1)) segs).getLast? = some pd ∧
      pd.tiempo_acumulado = (segs.map (fun e => e.tiempo)).sum ∧
      pd.distancia_acumulada = (segs.map (fun e => e.distancia)).sum ∧
      c = (segs.map (fun e => e.tiempo)).sum + chainPen lut sts segs := by
  have hinv := searchLoop_inv hg1 hg2 fuel initSS ssF
    (Inv_init g lut K_RUTAS max_trasbordos) hrun
  obtain ⟨h1, -, -⟩ := hinv.destOk (s, c) hdest
  have hc := reconChain_cost hinv f s c sts segs h1 hrec hroot
  obtain ⟨hne, hlen, -⟩ := reconChain_shape ssF.prev f s sts segs hrec
  have hlen' : (sts.map (fun st => st.1)).length = segs.length + 1 := by
    rw [List.length_map]
    exact hlen
  obtain ⟨pd, hpd, ht, hdst⟩ := puntosData_last pb flags _ segs hlen'
  exact ⟨pd, hpd, ht, hdst, hc⟩

theorem C3_witness :
    timesNonneg gT ∧
      searchLoop gT lutT K_RUTAS max_trasbordos 12 initSS = some ssTF ∧
      (sT, (17 : ℚ)) ∈ ssTF.dest ∧ stsT.head? = some startState ∧
      (∃ pd, (puntosData [] [] (stsT.map (fun st => st.1)) segsT).getLast? = some pd ∧
        pd.tiempo_acumulado = (segsT.map (fun e => e.tiempo)).sum ∧
        pd.distancia_acumulada = (segsT.map (fun e => e.distancia)).sum ∧
        (17 : ℚ) = (segsT.map (fun e => e.tiempo)).sum + chainPen lutT stsT segsT) :=
  ⟨by with_unfolding_all decide, by with_unfolding_all decide,
    by with_unfolding_all decide, by with_unfolding_all decide,
    C3_total_time_consistency gT lutT 12 ssTF (by with_unfolding_all decide)
      (by with_unfolding_all decide) (by with_unfolding_all decide) sT 17
      (by with_unfolding_all decide) (ssTF.prev.length + 1) stsT segsT rfl
      (by with_unfolding_all decide) [] []⟩

/-! ### C10: walking-only itineraries -/

theorem lineasUsadas_eq_nil {segs : List Edge} (h : ∀ e ∈ segs, e.es_caminar = true) :
    lineasUsadas segs = [] := by
  unfold lineasUsadas
  have haux : ∀ (l : List Edge) (acc : List LineaInfo), (∀ e ∈ l, e.es_caminar = true) →
      l.foldl
        (fun acc e =>
          if e.es_caminar then acc
          else if acc.any
              (fun li => decide (li.linea_id = e.linea_id ∧ li.sentido = e.numero_ruta))
          then acc
          else acc ++ [⟨e.linea_codigo, e.linea_nombre, e.numero_ruta, e.linea_id⟩]) acc =
        acc := by
    intro l
    induction l with
    | nil => intro acc _; rfl
    | cons e t ihl =>
      intro acc hl
      rw [List.foldl_cons]
      have he : e.es_caminar = true := hl e (by simp)
      simp only [he, if_true]
      exact ihl acc (fun e' he' => hl e' (List.mem_cons_of_mem e he'))
  exact haux segs [] h

/-- C10: every accepted itinerary all of whose traversed edges are walking
edges ends in a destination state with no active line and zero transfers, its
emitted line list is empty, and its textual summary is the no-lines variant
`"sin utilizar líneas"`. -/
theorem C10_walking_only (g : Graph) (lut : List (Nat × String)) (fuel : Nat)
    (ssF : SS) (hg1 : timesNonneg g) (hg2 : noEdgeToOrigin g)
    (hrun : searchLoop g lut K_RUTAS max_trasbordos fuel initSS = some ssF)
    (s : SKey) (c : ℚ) (hdest : (s, c) ∈ ssF.dest)
    (f : Nat) (sts : List SKey) (segs : List Edge)
    (hrec : reconChain ssF.prev f s = (sts, segs))
    (hroot : sts.head? = some startState)
    (hwalk : ∀ e ∈ segs, e.es_caminar = true) :
    s.2.1 = none ∧ s.2.2 = 0 ∧ lineasUsadas segs = [] ∧
      textoLineasSimple ((lineasUnicas (lineasUsadas segs)).map (fun li => li.codigo)) =
        "sin utilizar líneas" := by
  have hinv := searchLoop_inv hg1 hg2 fuel initSS ssF
    (Inv_init g lut K_RUTAS max_trasbordos) hrun
  obtain ⟨hc1, hc2⟩ := reconChain_walk_ctx hinv f s sts segs hrec hroot hwalk
  have hlu := lineasUsadas_eq_nil hwalk
  refine ⟨hc1, hc2, hlu, ?_⟩
  rw [hlu]
  rfl

theorem C10_witness :
    ((∀ e ∈ segsW, e.es_caminar = true) ∧
      searchLoop gWalk [] K_RUTAS max_trasbordos 10 initSS = some ssWalkF ∧
      (sWalk, (0 : ℚ)) ∈ ssWalkF.dest ∧ stsW.head? = some startState) ∧
      sWalk.2.1 = none ∧ sWalk.2.2 = 0 ∧ lineasUsadas segsW = [] ∧
      textoLineasSimple ((lineasUnicas (lineasUsadas segsW)).map (fun li => li.codigo)) =
        "sin utilizar líneas" :=
  ⟨⟨by with_unfolding_all decide, by with_unfolding_all decide,
    by with_unfolding_all decide, by with_unfolding_all decide⟩,
    C10_walking_only gWalk [] 10 ssWalkF (by with_unfolding_all decide)
      (by with_unfolding_all decide) (by with_unfolding_all decide) sWalk 0
      (by with_unfolding_all decide) (ssWalkF.prev.length + 1) stsW segsW rfl
      (by with_unfolding_all decide) (by with_unfolding_all decide)⟩

/-! ### C5: transfer-flag rule -/

theorem trasbordoFlags_getD (lut : List (Nat × String)) (sts : List SKey)
    (segs : List Edge) (i : Nat) :
    (trasbordoFlags lut sts segs).getD i none = flagAt lut sts segs i := by
  unfold trasbordoFlags
  by_cases h : i < sts.length
  · rw [List.getD_eq_getElem?_getD, List.getElem?_map, List.getElem?_range h]
    rfl
  · have h1 : (List.range sts.length).length ≤ i := by
      rw [List.length_range]
      omega
    rw [List.getD_eq_getElem?_getD, List.getElem?_map, List.getElem?_eq_none (by simpa using h1)]
    rw [flagAt, if_neg (by omega)]
    rfl

/-- C5 (counterexample): in the empty-base scenario, at stop 3 of the
reconstructed (and accepted) itinerary the active route changes between two
known transit contexts, the incoming edge is transit, and the base codes
(`""` from `"-IDA"` versus `"22"`) differ, yet no transfer flag is attached,
because the truthiness guard rejects the empty base code — the claim demands a
flag exactly when the base codes differ. -/
theorem C5_counterexample :
    searchLoop gE lutEmptyBase K_RUTAS max_trasbordos 12 initSS = some ssEF ∧
      (sE, (17 : ℚ)) ∈ ssEF.dest ∧
      (1 ≤ 3 ∧ 3 + 1 < stsE.length) ∧
      (stsE.getD 2 startState).2.1 = some 1 ∧
      (stsE.getD 3 startState).2.1 = some 2 ∧
      (segsE.getD 2 defaultEdge).es_caminar = false ∧
      alookup lutEmptyBase 1 = some "" ∧
      (segsE.getD 2 defaultEdge).linea_codigo_base = "22" ∧
      ("" : String) ≠ "22" ∧
      flagAt lutEmptyBase stsE segsE 3 = none := by
  with_unfolding_all decide

/-- C5 (amended): a stop of the reconstructed path carries a transfer flag —
the incoming line's display code — exactly when it is an intermediate stop,
the previous and current states carry distinct known route contexts, the
incoming edge is a transit edge, the previous context's base code is known and
non-empty, the incoming edge's base code is non-empty, and the two base codes
differ.  Direction-only changes (equal base codes) and changes involving an
empty or unknown base code are never flagged. -/
theorem C5_flag_rule (lut : List (Nat × String)) (sts : List SKey) (segs : List Edge)
    (i : Nat) (code : String) :
    (trasbordoFlags lut sts segs).getD i none = some code ↔
      1 ≤ i ∧ i + 1 < sts.length ∧
      ∃ pr cr, (sts.getD (i - 1) startState).2.1 = some pr ∧
        (sts.getD i startState).2.1 = some cr ∧ pr ≠ cr ∧
        (segs.getD (i - 1) defaultEdge).es_caminar = false ∧
        (∃ pb, alookup lut pr = some pb ∧ pb ≠ "" ∧
          (segs.getD (i - 1) defaultEdge).linea_codigo_base ≠ "" ∧
          pb ≠ (segs.getD (i - 1) defaultEdge).linea_codigo_base) ∧
        code = (segs.getD (i - 1) defaultEdge).linea_codigo := by
  rw [trasbordoFlags_getD]
  unfold flagAt
  by_cases hb : 1 ≤ i ∧ i + 1 < sts.length
  case neg =>
    rw [if_neg hb]
    constructor
    · intro h
      exact absurd h (by simp)
    · rintro ⟨h1, h2, -⟩
      exact absurd ⟨h1, h2⟩ hb
  rw [if_pos hb]
  dsimp only
  cases hpr : (sts.getD (i - 1) startState).2.1 with
  | none =>
    constructor
    · intro h
      exact absurd h (by simp)
    · rintro ⟨-, -, pr, cr, hpr', -⟩
      exact absurd hpr' (by simp)
  | some pr =>
    cases hcr : (sts.getD i startState).2.1 with
    | none =>
      constructor
      · intro h
        exact absurd h (by simp)
      · rintro ⟨-, -, pr', cr, -, hcr', -⟩
        exact absurd hcr' (by simp)
    | some cr =>
      dsimp only
      by_cases hprc : pr = cr
      · rw [if_pos hprc]
        constructor
        · intro h
          exact absurd h (by simp)
        · rintro ⟨-, -, pr', cr', hpr', hcr', hne, -⟩
          obtain rfl : pr = pr' := by simpa using hpr'
          obtain rfl : cr = cr' := by simpa using hcr'
          exact absurd hprc hne
      · rw [if_neg hprc]
        cases hw : (segs.getD (i - 1) defaultEdge).es_caminar with
        | true =>
          rw [if_pos rfl]
          constructor
          · intro h
            exact absurd h (by simp)
          · rintro ⟨-, -, pr', cr', -, -, -, hw', -⟩
            exact absurd hw' (by simp)
        | false =>
          rw [if_neg (by simp)]
          cases hlb : alookup lut pr with
          | none =>
            constructor
            · intro h
              exact absurd h (by simp)
            · rintro ⟨-, -, pr', cr', hpr', -, -, -, ⟨pb, hpb, -⟩, -⟩
              obtain rfl : pr = pr' := by simpa using hpr'
              rw [hlb] at hpb
              exact absurd hpb (by simp)
          | some pb =>
            dsimp only
            by_cases hcond : pb ≠ "" ∧ (segs.getD (i - 1) defaultEdge).linea_codigo_base ≠ "" ∧
                pb ≠ (segs.getD (i - 1) defaultEdge).linea_codigo_base
            · rw [if_pos hcond]
              constructor
              · intro h
                obtain rfl : (segs.getD (i - 1) defaultEdge).linea_codigo = code := by
                  simpa using h
                exact ⟨hb.1, hb.2, pr, cr, rfl, rfl, hprc, rfl,
                  ⟨pb, hlb, hcond.1, hcond.2.1, hcond.2.2⟩, rfl⟩
              · rintro ⟨-, -, pr', cr', hpr', hcr', -, -, -, hcode⟩
                rw [hcode]
            · rw [if_neg hcond]
              constructor
              · intro h
                exact absurd h (by simp)
              · rintro ⟨-, -, pr', cr', hpr', -, -, -, ⟨pb', hpb', h1', h2', h3'⟩, -⟩
                obtain rfl : pr = pr' := by simpa using hpr'
                rw [hlb] at hpb'
                obtain rfl : pb = pb' := by simpa using hpb'
                exact absurd ⟨h1', h2', h3'⟩ hcond

theorem C5_witness :
    flagAt lutT stsT segsT 3 = some "20" ∧
      (trasbordoFlags lutT stsT segsT).getD 3 none = some "20" := by
  constructor
  · with_unfolding_all decide
  · exact (C5_flag_rule lutT stsT segsT 3 "20").mpr
      ⟨by decide, by with_unfolding_all decide, 1, 2, by with_unfolding_all decide,
        by with_unfolding_all decide, by decide, by with_unfolding_all decide,
        ⟨"10", by with_unfolding_all decide, by decide, by with_unfolding_all decide,
          by with_unfolding_all decide⟩, by with_unfolding_all decide⟩

/-! ### C4: failure taxonomy -/

/-- C4: a completed run of the planner returns `errNoPuntos` exactly when the
stop snapshot is empty (checked before any edge is built), `errNoTramos`
exactly when there are stops but no transit edge (checked before the search),
`notFound` exactly when the search exhausted its frontier with zero
destination arrivals, and otherwise between 1 and `K_RUTAS = 3` itineraries. -/
theorem C4_failure_taxonomy (sqrtFn : ℚ → ℚ) (fuel : Nat)
    (iniLat iniLon finLat finLon : ℚ) (puntos : List Punto) (lineas_ruta : List LR)
    (out : Outcome)
    (hrun : post sqrtFn fuel iniLat iniLon finLat finLon puntos lineas_ruta = some out) :
    (out = Outcome.errNoPuntos ↔ puntos = []) ∧
    (out = Outcome.errNoTramos ↔ puntos ≠ [] ∧ buildTransit lineas_ruta = []) ∧
    (out = Outcome.notFound ↔ puntos ≠ [] ∧ buildTransit lineas_ruta ≠ [] ∧
      ∃ ssF, postSearch sqrtFn fuel iniLat iniLon finLat finLon puntos lineas_ruta =
          some ssF ∧ ssF.dest = [] ∧ ssF.pq = []) ∧
    (∀ rs, out = Outcome.ok rs → 1 ≤ rs.length ∧ rs.length ≤ K_RUTAS) := by
  unfold post at hrun
  by_cases hp : puntos = []
  · rw [if_pos hp] at hrun
    obtain rfl : Outcome.errNoPuntos = out := by simpa using hrun
    refine ⟨by simp [hp], ?_, ?_, ?_⟩
    · constructor
      · intro h
        exact absurd h (by simp)
      · rintro ⟨hne, -⟩
        exact absurd hp hne
    · constructor
      · intro h
        exact absurd h (by simp)
      · rintro ⟨hne, -⟩
        exact absurd hp hne
    · intro rs h
      exact absurd h (by simp)
  rw [if_neg hp] at hrun
  by_cases hg : buildTransit lineas_ruta = []
  · rw [if_pos hg] at hrun
    obtain rfl : Outcome.errNoTramos = out := by simpa using hrun
    refine ⟨?_, ?_, ?_, ?_⟩
    · constructor
      · intro h
        exact absurd h (by simp)
      · intro h
        exact absurd h hp
    · constructor
      · intro _
        exact ⟨hp, hg⟩
      · intro _
        rfl
    · constructor
      · intro h
        exact absurd h (by simp)
      · rintro ⟨-, hg2, -⟩
        exact absurd hg hg2
    · intro rs h
      exact absurd h (by simp)
  rw [if_neg hg] at hrun
  cases hps : postSearch sqrtFn fuel iniLat iniLon finLat finLon puntos lineas_ruta with
  | none =>
    rw [hps] at hrun
    exact absurd hrun (by simp)
  | some ssF =>
    rw [hps] at hrun
    dsimp only at hrun
    by_cases hd : ssF.dest = []
    · rw [if_pos hd] at hrun
      obtain rfl : Outcome.notFound = out := by simpa using hrun
      have hpq : ssF.pq = [] := by
        unfold postSearch at hps
        refine searchLoop_exhausted fuel initSS ssF hps ?_
        rw [hd]
        simp [K_RUTAS]
      refine ⟨?_, ?_, ?_, ?_⟩
      · constructor
        · intro h
          exact absurd h (by simp)
        · intro h
          exact absurd h hp
      · constructor
        · intro h
          exact absurd h (by simp)
        · rintro ⟨-, hg2⟩
          exact absurd hg2 hg
      · constructor
        · intro _
          exact ⟨hp, hg, ssF, rfl, hd, hpq⟩
        · intro _
          rfl
      · intro rs h
        exact absurd h (by simp)
    · rw [if_neg hd] at hrun
      obtain rfl : Outcome.ok (ssF.dest.map (procesarRuta ssF.prev
          (puntosById iniLat iniLon finLat finLon puntos)
          (lutOf (buildTransit lineas_ruta)))) = out := by simpa using hrun
      refine ⟨?_, ?_, ?_, ?_⟩
      · constructor
        · intro h
          exact absurd h (by simp)
        · intro h
          exact absurd h hp
      · constructor
        · intro h
          exact absurd h (by simp)
        · rintro ⟨-, hg2⟩
          exact absurd hg2 hg
      · constructor
        · intro h
          exact absurd h (by simp)
        · rintro ⟨-, -, ssF2, hps2, hd2, -⟩
          obtain rfl : ssF = ssF2 := by simpa using hps2
          exact absurd hd2 hd
      · intro rs h
        obtain rfl : ssF.dest.map (procesarRuta ssF.prev
            (puntosById iniLat iniLon finLat finLon puntos)
            (lutOf (buildTransit lineas_ruta))) = rs := by simpa using h
        rw [List.length_map]
        constructor
        · cases hq : ssF.dest with
          | nil => exact absurd hq hd
          | cons a t => simp [hq]
        · unfold postSearch at hps
          exact searchLoop_destLen fuel initSS ssF hps (by simp [initSS])

theorem C4_witness :
    post sqrtR 50 0 0 20 0 puntosR lrsR = some (Outcome.ok rutasR) ∧
      1 ≤ rutasR.length ∧ rutasR.length ≤ K_RUTAS := by
  have h := C4_failure_taxonomy sqrtR 50 0 0 20 0 puntosR lrsR (Outcome.ok rutasR)
    (by with_unfolding_all decide)
  exact ⟨by with_unfolding_all decide, h.2.2.2 rutasR rfl⟩

/-! ### C9: line-list distinctness -/

/-- C9 (counterexample): on the reversal snapshot the planner accepts an
itinerary riding line X outbound and then inbound; its emitted `lineas` list
contains line id 1 twice (once per direction), so the emitted list does NOT
contain each line at most once when direction is ignored. -/
theorem C9_counterexample :
    post sqrtR 50 0 0 20 0 puntosR lrsR = some (Outcome.ok rutasR) ∧
      (rutasR.headD defaultRuta).lineas.map (fun li => li.linea_id) = [some 1, some 1] ∧
      ¬ ((rutasR.headD defaultRuta).lineas.map (fun li => li.linea_id)).Pairwise
        (fun a b => a ≠ b) := by
  refine ⟨by with_unfolding_all decide, by with_unfolding_all decide, ?_⟩
  with_unfolding_all decide

theorem lineasUsadas_spec :
    ∀ (segs : List Edge) (acc : List LineaInfo),
      ∃ rest,
        segs.foldl
          (fun acc e =>
            if e.es_caminar then acc
            else if acc.any
                (fun li => decide (li.linea_id = e.linea_id ∧ li.sentido = e.numero_ruta))
            then acc
            else acc ++ [⟨e.linea_codigo, e.linea_nombre, e.numero_ruta, e.linea_id⟩]) acc =
          acc ++ rest ∧
        rest.Sublist ((segs.filter (fun e => !e.es_caminar)).map mkLineaInfo) ∧
        (acc.Pairwise (fun a b => (a.linea_id, a.sentido) ≠ (b.linea_id, b.sentido)) →
          (acc ++ rest).Pairwise
            (fun a b => (a.linea_id, a.sentido) ≠ (b.linea_id, b.sentido))) ∧
        (∀ e ∈ segs, e.es_caminar = false →
          ∃ li ∈ acc ++ rest, li.linea_id = e.linea_id ∧ li.sentido = e.numero_ruta) := by
  intro segs
  induction segs with
  | nil =>
    intro acc
    refine ⟨[], by simp, by simp, by simp, by simp⟩
  | cons e t ih =>
    intro acc
    rw [List.foldl_cons]
    cases hw : e.es_caminar with
    | true =>
      simp only [if_true]
      obtain ⟨rest, h1, h2, h3, h4⟩ := ih acc
      refine ⟨rest, h1, ?_, h3, ?_⟩
      · have : (e :: t).filter (fun e => !e.es_caminar) = t.filter (fun e => !e.es_caminar) := by
          simp [List.filter_cons, hw]
        rw [this]
        exact h2
      · intro e' he' hwe'
        rcases List.mem_cons.mp he' with rfl | he''
        · rw [hw] at hwe'
          exact absurd hwe' (by simp)
        · exact h4 e' he'' hwe'
    | false =>
      simp only [Bool.false_eq_true, if_false]
      by_cases hany : acc.any
          (fun li => decide (li.linea_id = e.linea_id ∧ li.sentido = e.numero_ruta)) = true
      · rw [if_pos hany]
        obtain ⟨rest, h1, h2, h3, h4⟩ := ih acc
        refine ⟨rest, h1, ?_, h3, ?_⟩
        · have : (e :: t).filter (fun e => !e.es_caminar) =
              e :: t.filter (fun e => !e.es_caminar) := by
            simp [List.filter_cons, hw]
          rw [this, List.map_cons]
          exact h2.cons (mkLineaInfo e)
        · intro e' he' hwe'
          rcases List.mem_cons.mp he' with rfl | he''
          · obtain ⟨li, hli, hkey⟩ := List.any_eq_true.mp hany
            exact ⟨li, List.mem_append.mpr (Or.inl hli), of_decide_eq_true hkey⟩
          · exact h4 e' he'' hwe'
      · rw [if_neg hany]
        have hmk : (⟨e.linea_codigo, e.linea_nombre, e.numero_ruta, e.linea_id⟩ :
            LineaInfo) = mkLineaInfo e := rfl
        rw [hmk]
        obtain ⟨rest, h1, h2, h3, h4⟩ := ih (acc ++ [mkLineaInfo e])
        refine ⟨mkLineaInfo e :: rest, ?_, ?_, ?_, ?_⟩
        · rw [h1, List.append_assoc]
          rfl
        · have : (e :: t).filter (fun e => !e.es_caminar) =
              e :: t.filter (fun e => !e.es_caminar) := by
            simp [List.filter_cons, hw]
          rw [this, List.map_cons]
          exact h2.cons₂ (mkLineaInfo e)
        · intro hacc
          have hnot : ∀ li ∈ acc,
              ¬(li.linea_id = e.linea_id ∧ li.sentido = e.numero_ruta) := by
            intro li hli hkey
            exact hany (List.any_eq_true.mpr ⟨li, hli, decide_eq_true hkey⟩)
          have hacc' : (acc ++ [mkLineaInfo e]).Pairwise
              (fun a b => (a.linea_id, a.sentido) ≠ (b.linea_id, b.sentido)) := by
            rw [List.pairwise_append]
            refine ⟨hacc, by simp, ?_⟩
            intro a ha b hb
            simp only [List.mem_singleton] at hb
            subst hb
            intro hk
            apply hnot a ha
            unfold mkLineaInfo at hk
            have h1' := congrArg Prod.fst hk
            have h2' := congrArg Prod.snd hk
            simp at h1' h2'
            exact ⟨h1', h2'⟩
          have := h3 hacc'
          rw [List.append_assoc] at this
          exact this
        · intro e' he' hwe'
          rcases List.mem_cons.mp he' with rfl | he''
          · refine ⟨mkLineaInfo e', ?_, rfl, rfl⟩
            exact List.mem_append.mpr (Or.inr (by simp))
          · obtain ⟨li, hli, hk1, hk2⟩ := h4 e' he'' hwe'
            rw [List.append_assoc] at hli
            exact ⟨li, by simpa using hli, hk1, hk2⟩

/-- C9 (amended): the emitted `lineas` list of an itinerary has pairwise
distinct `(line identity, direction)` keys — a line ridden in both directions
appears once per direction — in order of first encounter along the transit
edges (it is a subsequence of the transit-edge infos), covering every transit
edge's key.  Only the textual summary deduplicates by line identity alone. -/
theorem C9_lineas_per_direction (segs : List Edge) :
    (lineasUsadas segs).Pairwise
      (fun a b => (a.linea_id, a.sentido) ≠ (b.linea_id, b.sentido)) ∧
    (lineasUsadas segs).Sublist
      ((segs.filter (fun e => !e.es_caminar)).map mkLineaInfo) ∧
    (∀ e ∈ segs, e.es_caminar = false →
      ∃ li ∈ lineasUsadas segs, li.linea_id = e.linea_id ∧ li.sentido = e.numero_ruta) := by
  obtain ⟨rest, h1, h2, h3, h4⟩ := lineasUsadas_spec segs []
  have hlu : lineasUsadas segs = rest := by
    unfold lineasUsadas
    rw [h1]
    simp
  rw [hlu]
  refine ⟨?_, h2, ?_⟩
  · have := h3 (by simp)
    simpa using this
  · intro e he hwe
    obtain ⟨li, hli, hk⟩ := h4 e he hwe
    exact ⟨li, by simpa using hli, hk⟩

theorem C9_witness :
    (lineasUsadas segsT).Pairwise
      (fun a b => (a.linea_id, a.sentido) ≠ (b.linea_id, b.sentido)) :=
  (C9_lineas_per_direction segsT).1

end DijkstraViews
